import Mathlib

/-!
Shallow embedding of the DBAL notebook (`dbal_keras-checkpoint.ipynb`):
pool-based deep Bayesian active learning on MNIST with Monte-Carlo dropout.

Modelling conventions:
* numpy float arrays are embedded as (nested) `List ℚ`; `np.log` is an
  abstract parameter `log : ℚ → ℚ` (floating-point log has no exact rational
  embedding; every theorem below is proved for an arbitrary `log`, so it holds
  in particular for the real logarithm).
* `np.random.choice` is modelled by a deterministic oracle argument together
  with a validity predicate (`ValidChoice`, `ValidChoiceFrom`) stating exactly
  what numpy guarantees for a without-replacement draw.
* The Keras Monte-Carlo forward pass `MC_output` (a `K.function` over the
  model) is an abstract parameter `(batch, learning_phase, draw) ↦ class
  probabilities`; the third argument indexes the stochastic dropout draw of
  each call.
* Fallible numpy calls (`np.random.choice` with too large a sample) return
  `Except String`, as does each query strategy built on them.
-/

namespace DBAL

/-- The smoothing constant `1e-10` used inside the logarithms. -/
def eps : ℚ := 1 / 10000000000

/-- numpy fancy indexing `X[idx]` along axis 0. -/
def npIndex {α : Type} [Inhabited α] (X : List α) (idx : List ℕ) : List α :=
  idx.map fun i => X.getD i default

/-- Worker for `npDelete`: walks the list keeping track of the current
position, dropping positions that occur in `idx`. -/
def npDeleteAux {α : Type} (idx : List ℕ) : List α → ℕ → List α
  | [], _ => []
  | x :: rest, i =>
    if i ∈ idx then npDeleteAux idx rest (i + 1)
    else x :: npDeleteAux idx rest (i + 1)

/-- Embedding of `np.delete(xs, idx, axis=0)`: remove the entries whose position occurs in
`idx` (each position is removed once, duplicates in `idx` have no further
effect). -/
def npDelete {α : Type} (xs : List α) (idx : List ℕ) : List α :=
  npDeleteAux idx xs 0

/-- Embedding of `np.random.choice(n, k, replace=False)`.  The randomness is supplied by
the oracle `choice`; numpy raises `ValueError` when `k > n`. -/
def npChoice (choice : ℕ → ℕ → List ℕ) (n k : ℕ) : Except String (List ℕ) :=
  if k ≤ n then Except.ok (choice n k)
  else Except.error "ValueError: cannot take a larger sample than population when replace is False"

/-- What numpy guarantees about a without-replacement draw of `k` values from
`range n` (for `k ≤ n`): `k` pairwise distinct indices, all below `n`. -/
def ValidChoice (choice : ℕ → ℕ → List ℕ) : Prop :=
  ∀ n k, k ≤ n →
    (choice n k).length = k ∧ (choice n k).Nodup ∧ ∀ i ∈ choice n k, i < n

/-- Embedding of `np.random.choice(arr, k, replace=False)` drawing from an explicit array
of candidates. -/
def npChoiceFrom (cf : List ℕ → ℕ → List ℕ) (arr : List ℕ) (k : ℕ) :
    Except String (List ℕ) :=
  if k ≤ arr.length then Except.ok (cf arr k)
  else Except.error "ValueError: cannot take a larger sample than population when replace is False"

/-- numpy guarantee for a without-replacement draw from an array `arr`:
`k` entries of `arr`, pairwise distinct positions (hence distinct values
whenever `arr` has no duplicates). -/
def ValidChoiceFrom (cf : List ℕ → ℕ → List ℕ) : Prop :=
  ∀ arr k, k ≤ arr.length →
    (cf arr k).length = k ∧ (arr.Nodup → (cf arr k).Nodup) ∧ ∀ i ∈ cf arr k, i ∈ arr

/-- Total order on indices used to model `np.argsort`: ascending by key,
ties broken by index. -/
def argLe (keys : List ℚ) (i j : ℕ) : Prop :=
  keys.getD i 0 < keys.getD j 0 ∨ (keys.getD i 0 = keys.getD j 0 ∧ i ≤ j)

instance argLe.decidableRel (keys : List ℚ) : DecidableRel (argLe keys) :=
  fun _ _ => inferInstanceAs (Decidable (_ ∨ _))

instance argLe.isTotal (keys : List ℚ) : IsTotal ℕ (argLe keys) where
  total i j := by
    rcases lt_trichotomy (keys.getD i 0) (keys.getD j 0) with h | h | h
    · exact Or.inl (Or.inl h)
    · rcases Nat.le_total i j with hij | hij
      · exact Or.inl (Or.inr ⟨h, hij⟩)
      · exact Or.inr (Or.inr ⟨h.symm, hij⟩)
    · exact Or.inr (Or.inl h)

instance argLe.isTrans (keys : List ℚ) : IsTrans ℕ (argLe keys) where
  trans i j k hij hjk := by
    rcases hij with h₁ | ⟨e₁, l₁⟩
    · rcases hjk with h₂ | ⟨e₂, _⟩
      · exact Or.inl (h₁.trans h₂)
      · exact Or.inl (e₂ ▸ h₁)
    · rcases hjk with h₂ | ⟨e₂, l₂⟩
      · exact Or.inl (e₁ ▸ h₂)
      · exact Or.inr ⟨e₁.trans e₂, l₁.trans l₂⟩

/-- Embedding of `np.argsort(keys)`: the permutation of `range keys.length` that sorts the
keys in ascending order (ties resolved by index). -/
def npArgsort (keys : List ℚ) : List ℕ :=
  List.insertionSort (argLe keys) (List.range keys.length)

/-- Elementwise negation `-v` of a numpy vector. -/
def npNeg (v : List ℚ) : List ℚ := v.map fun q => -q

/-- Embedding of `np.mean(s, axis=0)` for a rank-3 tensor `s` of shape `[T, B, C]`:
entry `(b, c)` of the result is the mean over `t` of `s[t][b][c]`
(shape taken from the first slice, as numpy does for a rectangular array). -/
def npMeanAxis0 (s : List (List (List ℚ))) : List (List ℚ) :=
  match s with
  | [] => []
  | s0 :: _ =>
    (List.range s0.length).map fun b =>
      (List.range (s0.getD b []).length).map fun c =>
        (s.map fun t => (t.getD b []).getD c 0).sum / (s.length : ℚ)

/-- Embedding of `np.mean(m, axis=0)` for a rank-2 tensor `m` of shape `[T, B]`. -/
def npMeanAxis0Mat (m : List (List ℚ)) : List ℚ :=
  match m with
  | [] => []
  | m0 :: _ =>
    (List.range m0.length).map fun b =>
      (m.map fun t => t.getD b 0).sum / (m.length : ℚ)

/-! ### Query strategies (notebook cells 14-17)

Each strategy receives the learner only through the Monte-Carlo forward pass
`MC_output : batch → learning_phase → draw → [batch size, classes]`, the RNG
through `choice`, and `np.log` through `log`.  `T` is an explicit argument
(the notebook default is `T = 100`). -/

/-- Cell 14: `uniform(learner, X, n_instances)` — a uniformly random
without-replacement draw of `n_instances` pool indices. -/
def uniform {α : Type} [Inhabited α] (choice : ℕ → ℕ → List ℕ)
    (X : List α) (n_instances : ℕ) : Except String (List ℕ × List α) := do
  let query_idx ← npChoice choice X.length n_instances
  pure (query_idx, npIndex X query_idx)

/-- Cell 15: `max_entropy(learner, X, n_instances, T)` — predictive-entropy
acquisition over a 2000-point random subsample of the pool. -/
def max_entropy {α : Type} [Inhabited α] (choice : ℕ → ℕ → List ℕ)
    (MC_output : List α → Bool → ℕ → List (List ℚ)) (log : ℚ → ℚ)
    (X : List α) (n_instances T : ℕ) : Except String (List ℕ × List α) := do
  let random_subset ← npChoice choice X.length 2000
  let learning_phase := true
  let MC_samples := (List.range T).map fun t =>
    MC_output (npIndex X random_subset) learning_phase t
  let expected_p := npMeanAxis0 MC_samples
  let acquisition := expected_p.map fun row =>
    -(row.map fun p => p * log (p + eps)).sum
  let idx := (npArgsort (npNeg acquisition)).take n_instances
  let query_idx := npIndex random_subset idx
  pure (query_idx, npIndex X query_idx)

/-- Cell 16: `var_ratio(learner, X, n_instances, T)`.  After building
`MC_samples`, the notebook executes `preds = np.argmax(a, axis=2)` — but the
name `a` is bound nowhere in the function (and `stats` is never imported), so
the call raises `NameError` before any acquisition value is computed. -/
def var_ratio {α : Type} [Inhabited α] (choice : ℕ → ℕ → List ℕ)
    (MC_output : List α → Bool → ℕ → List (List ℚ))
    (X : List α) (n_instances T : ℕ) : Except String (List ℕ × List α) := do
  let random_subset ← npChoice choice X.length 2000
  let learning_phase := true
  let _MC_samples := (List.range T).map fun t =>
    MC_output (npIndex X random_subset) learning_phase t
  let _ := n_instances
  Except.error "NameError: name a is not defined"

/-- Cell 17: `bald(learner, X, n_instances, T)` — mutual-information (BALD)
acquisition over a 2000-point random subsample of the pool. -/
def bald {α : Type} [Inhabited α] (choice : ℕ → ℕ → List ℕ)
    (MC_output : List α → Bool → ℕ → List (List ℚ)) (log : ℚ → ℚ)
    (X : List α) (n_instances T : ℕ) : Except String (List ℕ × List α) := do
  let random_subset ← npChoice choice X.length 2000
  let learning_phase := true
  let MC_samples := (List.range T).map fun t =>
    MC_output (npIndex X random_subset) learning_phase t
  let expected_entropy := npNeg (npMeanAxis0Mat (MC_samples.map fun slice =>
    slice.map fun row => (row.map fun p => p * log (p + eps)).sum))
  let expected_p := npMeanAxis0 MC_samples
  let entropy_expected_p := expected_p.map fun row =>
    -(row.map fun p => p * log (p + eps)).sum
  let acquisition := List.zipWith (fun a b => a - b) entropy_expected_p expected_entropy
  let idx := (npArgsort (npNeg acquisition)).take n_instances
  let query_idx := npIndex random_subset idx
  pure (query_idx, npIndex X query_idx)

/-! ### Initial labelled data and pool (notebook cells 8, 10, 12) -/

/-- Embedding of `keras.utils.to_categorical(labels, numClasses)`: one-hot encoding. -/
def toCategorical (numClasses : ℕ) (labels : List ℕ) : List (List ℚ) :=
  labels.map fun l => (List.range numClasses).map fun c => if c = l then 1 else 0

/-- Embedding of `np.where(y[:, i] == 1)[0]`: the row indices whose one-hot row has a `1`
in column `i`. -/
def whereColOne (y : List (List ℚ)) (i : ℕ) : List ℕ :=
  (List.range y.length).filter fun j => (y.getD j []).getD i 0 = 1

/-- Cell 10: build `initial_idx` — for each of the ten classes, draw two
training indices of that class without replacement and concatenate. -/
def initial_idx (cf : List ℕ → ℕ → List ℕ) (y_train : List (List ℚ)) :
    Except String (List ℕ) :=
  (List.range 10).foldlM
    (fun acc i => do
      let idx ← npChoiceFrom cf (whereColOne y_train i) 2
      pure (acc ++ idx))
    []

/-! ### The active-learning procedure (notebook cell 19)

The modAL `ActiveLearner` is external library code; it is abstracted as a
state type `σ` with the four operations the notebook uses.  `score` is the
test-set accuracy (the test set is fixed throughout, so it is folded into the
operation); `query` applies the learner's query strategy to the pool;
`teach` refits on the queried batch. -/

structure ActiveLearnerOps (σ α β : Type) where
  init : List α → List β → σ
  score : σ → ℚ
  query : σ → List α → ℕ → List ℕ × List α
  teach : σ → List α → List β → σ

/-- The mutable state of the notebook's loop: the learner plus the two pools. -/
structure ALState (σ α β : Type) where
  learner : σ
  X_pool : List α
  y_pool : List β

/-- One iteration of the loop body of `active_learning_procedure`: query the
pool, teach on the queried rows, delete them from both pools. -/
def al_step {σ α β : Type} [Inhabited α] [Inhabited β]
    (M : ActiveLearnerOps σ α β) (n_instances : ℕ) (s : ALState σ α β) :
    ALState σ α β :=
  let query_idx := (M.query s.learner s.X_pool n_instances).1
  let learner := M.teach s.learner (npIndex s.X_pool query_idx) (npIndex s.y_pool query_idx)
  ⟨learner, npDelete s.X_pool query_idx, npDelete s.y_pool query_idx⟩

/-- The state after `k` iterations of the loop. -/
def al_iter {σ α β : Type} [Inhabited α] [Inhabited β]
    (M : ActiveLearnerOps σ α β) (n_instances : ℕ) (s : ALState σ α β) :
    ℕ → ALState σ α β
  | 0 => s
  | k + 1 => al_step M n_instances (al_iter M n_instances s k)

/-- The `for index in range(n_queries)` loop: runs the body and records the
test accuracy after every iteration. -/
def al_loop {σ α β : Type} [Inhabited α] [Inhabited β]
    (M : ActiveLearnerOps σ α β) (n_instances : ℕ) (s : ALState σ α β) :
    ℕ → List ℚ
  | 0 => []
  | k + 1 =>
    let s2 := al_step M n_instances s
    M.score s2.learner :: al_loop M n_instances s2 k

/-- Cell 19: `active_learning_procedure` — fit on the initial labelled data,
record the initial test accuracy, run `n_queries` query-teach iterations and
return the accuracy history. -/
def active_learning_procedure {σ α β : Type} [Inhabited α] [Inhabited β]
    (M : ActiveLearnerOps σ α β) (X_pool : List α) (y_pool : List β)
    (X_initial : List α) (y_initial : List β)
    (n_queries n_instances : ℕ) : List ℚ :=
  let learner := M.init X_initial y_initial
  let s0 : ALState σ α β := ⟨learner, X_pool, y_pool⟩
  M.score s0.learner :: al_loop M n_instances s0 n_queries

/-! ### Top-level script structure (all notebook cells)

For the claim about plotting, the notebook's top-level statements are
embedded as data: each code cell becomes a list of abstract statements.
Nothing in the notebook other than the statement kinds below occurs at the
top level. -/

/-- Kinds of top-level statements occurring in the notebook's code cells. -/
inductive ScriptStmt where
  | importLib (module : String)
  | setVerbosity
  | defineFun (fname : String)
  | assign (target : String)
  | loadData
  | runALProcedure (strategy : String) (target : String)
  | setStyle
  | plotCurves (curves : List String)
deriving DecidableEq

/-- The notebook's code cells, in order, as lists of top-level statements. -/
def notebookCells : List (List ScriptStmt) :=
  [ [ScriptStmt.importLib "keras", ScriptStmt.importLib "numpy",
     ScriptStmt.importLib "keras.backend", ScriptStmt.importLib "keras.datasets.mnist",
     ScriptStmt.importLib "keras.models.Sequential", ScriptStmt.importLib "keras.layers",
     ScriptStmt.importLib "keras.regularizers.l2",
     ScriptStmt.importLib "keras.wrappers.scikit_learn.KerasClassifier",
     ScriptStmt.importLib "modAL.models.ActiveLearner", ScriptStmt.importLib "tensorflow",
     ScriptStmt.setVerbosity],
    [ScriptStmt.defineFun "create_keras_model"],
    [ScriptStmt.assign "classifier"],
    [ScriptStmt.loadData],
    [ScriptStmt.assign "X_train", ScriptStmt.assign "X_test",
     ScriptStmt.assign "y_train", ScriptStmt.assign "y_test"],
    [ScriptStmt.assign "initial_idx", ScriptStmt.assign "X_initial",
     ScriptStmt.assign "y_initial"],
    [ScriptStmt.assign "X_pool", ScriptStmt.assign "y_pool"],
    [ScriptStmt.defineFun "uniform"],
    [ScriptStmt.defineFun "max_entropy"],
    [ScriptStmt.defineFun "var_ratio"],
    [ScriptStmt.defineFun "bald"],
    [ScriptStmt.defineFun "active_learning_procedure"],
    [ScriptStmt.assign "estimator",
     ScriptStmt.runALProcedure "max_entropy" "entropy_perf_hist"],
    [ScriptStmt.assign "estimator",
     ScriptStmt.runALProcedure "uniform" "uniform_perf_hist"],
    [ScriptStmt.importLib "matplotlib.pyplot", ScriptStmt.importLib "seaborn",
     ScriptStmt.setStyle] ]

/-- All top-level statements of the notebook in execution order. -/
def notebookScript : List ScriptStmt := notebookCells.flatten

/-- Whether a statement is a plotting call (any call producing a plot of
curves). -/
def isPlotStmt : ScriptStmt → Bool
  | ScriptStmt.plotCurves _ => true
  | _ => false

/-! ### Specification-side formulas

The following definitions transcribe the claimed acquisition formulas (they
follow the claims' words, for comparison with the code-side pipeline above):
`specMeanProb` is the mean over the `T` Monte-Carlo samples of the predicted
probability of class `c` for point `b`; `specEntropy` is the predictive
entropy of that mean distribution; `specMeanEntropy` is the mean over the
samples of the per-sample entropies; `specBald` is their difference. -/

def specMeanProb (MCfun : ℕ → List (List ℚ)) (T b c : ℕ) : ℚ :=
  ((List.range T).map fun t => ((MCfun t).getD b []).getD c 0).sum / (T : ℚ)

def specEntropy (log : ℚ → ℚ) (MCfun : ℕ → List (List ℚ)) (T C b : ℕ) : ℚ :=
  -(((List.range C).map fun c =>
      specMeanProb MCfun T b c * log (specMeanProb MCfun T b c + eps)).sum)

def specSampleEntropy (log : ℚ → ℚ) (MCfun : ℕ → List (List ℚ)) (C t b : ℕ) : ℚ :=
  -(((List.range C).map fun c =>
      ((MCfun t).getD b []).getD c 0 * log (((MCfun t).getD b []).getD c 0 + eps)).sum)

def specMeanEntropy (log : ℚ → ℚ) (MCfun : ℕ → List (List ℚ)) (T C b : ℕ) : ℚ :=
  ((List.range T).map fun t => specSampleEntropy log MCfun C t b).sum / (T : ℚ)

def specBald (log : ℚ → ℚ) (MCfun : ℕ → List (List ℚ)) (T C b : ℕ) : ℚ :=
  specEntropy log MCfun T C b - specMeanEntropy log MCfun T C b

/-- A concrete `ActiveLearnerOps` instance used to evaluate the loop
theorems: the trivial learner whose query strategy picks the first
`min n pool.length` pool indices. -/
def demoOps : ActiveLearnerOps Unit ℕ ℕ :=
  ⟨fun _ _ => (), fun _ => 0,
   fun _ pool n => (List.range (min n pool.length),
     npIndex pool (List.range (min n pool.length))),
   fun _ _ _ => ()⟩


/-! ### Helper lemmas about the numpy primitives -/

theorem npDeleteAux_sublist {α : Type} (idx : List ℕ) :
    ∀ (xs : List α) (i : ℕ), (npDeleteAux idx xs i).Sublist xs
  | [], _ => List.Sublist.refl _
  | x :: rest, i => by
    unfold npDeleteAux
    by_cases h : i ∈ idx
    · rw [if_pos h]
      exact (npDeleteAux_sublist idx rest (i + 1)).cons x
    · rw [if_neg h]
      exact (npDeleteAux_sublist idx rest (i + 1)).cons₂ x

theorem npDelete_sublist {α : Type} (xs : List α) (idx : List ℕ) :
    (npDelete xs idx).Sublist xs :=
  npDeleteAux_sublist idx xs 0

theorem npDeleteAux_length {α : Type} (idx : List ℕ) :
    ∀ (xs : List α) (i : ℕ),
      (npDeleteAux idx xs i).length
        = ((List.range' i xs.length).filter (fun j => decide (j ∉ idx))).length
  | [], _ => rfl
  | x :: rest, i => by
    unfold npDeleteAux
    rw [List.length_cons, List.range'_succ]
    by_cases h : i ∈ idx
    · rw [if_pos h, List.filter_cons_of_neg (by simpa using h)]
      exact npDeleteAux_length idx rest (i + 1)
    · rw [if_neg h, List.filter_cons_of_pos (by simpa using h), List.length_cons,
        List.length_cons]
      rw [npDeleteAux_length idx rest (i + 1)]

theorem npDelete_length {α : Type} (xs : List α) (idx : List ℕ) :
    (npDelete xs idx).length
      = ((List.range xs.length).filter (fun j => decide (j ∉ idx))).length := by
  rw [npDelete, npDeleteAux_length, List.range_eq_range']

theorem filter_mem_range_length (idx : List ℕ) (n : ℕ)
    (hval : ∀ i ∈ idx, i < n) :
    ((List.range n).filter (fun j => decide (j ∈ idx))).length = idx.dedup.length := by
  have hnd : ((List.range n).filter (fun j => decide (j ∈ idx))).Nodup :=
    (List.nodup_range n).filter _
  have hfin : ((List.range n).filter (fun j => decide (j ∈ idx))).toFinset = idx.toFinset := by
    ext j
    simp only [List.mem_toFinset, List.mem_filter, List.mem_range, decide_eq_true_eq]
    constructor
    · exact fun h => h.2
    · exact fun h => ⟨hval j h, h⟩
  calc ((List.range n).filter (fun j => decide (j ∈ idx))).length
      = ((List.range n).filter (fun j => decide (j ∈ idx))).toFinset.card :=
        (List.toFinset_card_of_nodup hnd).symm
    _ = idx.toFinset.card := by rw [hfin]
    _ = idx.dedup.length := List.card_toFinset idx

theorem npDelete_length_sub {α : Type} (xs : List α) (idx : List ℕ)
    (hval : ∀ i ∈ idx, i < xs.length) :
    (npDelete xs idx).length = xs.length - idx.dedup.length := by
  have hsplit := List.length_eq_length_filter_add (l := List.range xs.length)
    (fun j => decide (j ∈ idx))
  rw [List.length_range] at hsplit
  have hnotc : (List.range xs.length).filter (fun j => !decide (j ∈ idx))
      = (List.range xs.length).filter (fun j => decide (j ∉ idx)) := by
    apply List.filter_congr
    intro j _
    by_cases h : j ∈ idx <;> simp [h]
  rw [hnotc, filter_mem_range_length idx xs.length hval] at hsplit
  rw [npDelete_length]
  omega

theorem npDeleteAux_zip {α β : Type} (idx : List ℕ) :
    ∀ (xs : List α) (ys : List β) (i : ℕ), xs.length = ys.length →
      npDeleteAux idx (xs.zip ys) i = (npDeleteAux idx xs i).zip (npDeleteAux idx ys i)
  | [], [], _, _ => rfl
  | [], _ :: _, _, h => by simp at h
  | _ :: _, [], _, h => by simp at h
  | x :: xs, y :: ys, i, h => by
    have hlen : xs.length = ys.length := by simpa using h
    unfold npDeleteAux
    rw [List.zip_cons_cons]
    by_cases hm : i ∈ idx
    · simp only [if_pos hm]
      exact npDeleteAux_zip idx xs ys (i + 1) hlen
    · simp only [if_neg hm]
      rw [List.zip_cons_cons, npDeleteAux_zip idx xs ys (i + 1) hlen]

theorem npDelete_zip {α β : Type} (xs : List α) (ys : List β) (idx : List ℕ)
    (h : xs.length = ys.length) :
    npDelete (xs.zip ys) idx = (npDelete xs idx).zip (npDelete ys idx) :=
  npDeleteAux_zip idx xs ys 0 h

theorem npDeleteAux_not_mem {α : Type} (idx : List ℕ) :
    ∀ (xs : List α) (i k : ℕ) (d : α), xs.Nodup → k < xs.length → (i + k) ∈ idx →
      xs.getD k d ∉ npDeleteAux idx xs i
  | [], _, k, _, _, hk, _ => by simp at hk
  | x :: rest, i, 0, d, hnd, _, hmem => by
    rw [List.getD_cons_zero]
    have hx : x ∉ rest := (List.nodup_cons.mp hnd).1
    unfold npDeleteAux
    rw [if_pos (by simpa using hmem)]
    intro hcon
    exact hx ((npDeleteAux_sublist idx rest (i + 1)).mem hcon)
  | x :: rest, i, k + 1, d, hnd, hk, hmem => by
    rw [List.getD_cons_succ]
    have hx : x ∉ rest := (List.nodup_cons.mp hnd).1
    have hrest : rest.Nodup := (List.nodup_cons.mp hnd).2
    have hk2 : k < rest.length := by simpa using hk
    have hmem2 : (i + 1) + k ∈ idx := by
      have : i + 1 + k = i + (k + 1) := by omega
      rw [this]; exact hmem
    have ih := npDeleteAux_not_mem idx rest (i + 1) k d hrest hk2 hmem2
    have hget : rest.getD k d ∈ rest := by
      rw [List.getD_eq_getElem rest d hk2]
      exact List.getElem_mem hk2
    unfold npDeleteAux
    by_cases hm : i ∈ idx
    · rw [if_pos hm]; exact ih
    · rw [if_neg hm]
      intro hcon
      rcases List.mem_cons.mp hcon with hcon | hcon
      · exact hx (hcon ▸ hget)
      · exact ih hcon

theorem npDelete_not_mem {α : Type} (xs : List α) (idx : List ℕ) (k : ℕ) (d : α)
    (hnd : xs.Nodup) (hk : k < xs.length) (hmem : k ∈ idx) :
    xs.getD k d ∉ npDelete xs idx :=
  npDeleteAux_not_mem idx xs 0 k d hnd hk (by simpa using hmem)

theorem npArgsort_perm (keys : List ℚ) :
    (npArgsort keys).Perm (List.range keys.length) :=
  List.perm_insertionSort _ _

theorem npArgsort_sorted (keys : List ℚ) :
    List.Sorted (argLe keys) (npArgsort keys) :=
  List.sorted_insertionSort _ _

theorem npArgsort_length (keys : List ℚ) :
    (npArgsort keys).length = keys.length := by
  rw [(npArgsort_perm keys).length_eq, List.length_range]

theorem npArgsort_nodup (keys : List ℚ) : (npArgsort keys).Nodup :=
  ((npArgsort_perm keys).nodup_iff).mpr (List.nodup_range keys.length)

/-- The first `n` entries of the argsort of `keys` are `min n keys.length`
pairwise-distinct valid positions whose keys are no larger than the key of
any position not selected. -/
theorem argsort_take_spec (keys : List ℚ) (n : ℕ) :
    ((npArgsort keys).take n).Nodup ∧
    ((npArgsort keys).take n).length = min n keys.length ∧
    (∀ i ∈ (npArgsort keys).take n, i < keys.length) ∧
    ∀ i ∈ (npArgsort keys).take n, ∀ j, j < keys.length →
      j ∉ (npArgsort keys).take n → keys.getD i 0 ≤ keys.getD j 0 := by
  have hnd : ((npArgsort keys).take n).Nodup :=
    (List.take_sublist n (npArgsort keys)).nodup (npArgsort_nodup keys)
  have hlen : ((npArgsort keys).take n).length = min n keys.length := by
    rw [List.length_take, npArgsort_length]
  have hmemrange : ∀ i ∈ npArgsort keys, i < keys.length := by
    intro i hi
    have : i ∈ List.range keys.length := (npArgsort_perm keys).mem_iff.mp hi
    exact List.mem_range.mp this
  have hmem : ∀ i ∈ (npArgsort keys).take n, i < keys.length := fun i hi =>
    hmemrange i ((List.take_sublist n (npArgsort keys)).mem hi)
  refine ⟨hnd, hlen, hmem, ?_⟩
  intro i hi j hj hjn
  have hsorted := npArgsort_sorted keys
  have hsplit : npArgsort keys = (npArgsort keys).take n ++ (npArgsort keys).drop n :=
    (List.take_append_drop n (npArgsort keys)).symm
  rw [hsplit] at hsorted
  have hcross := (List.pairwise_append.mp hsorted).2.2
  have hjmem : j ∈ npArgsort keys := by
    have : j ∈ List.range keys.length := List.mem_range.mpr hj
    exact (npArgsort_perm keys).mem_iff.mpr this
  have hjdrop : j ∈ (npArgsort keys).drop n := by
    rw [hsplit] at hjmem
    rcases List.mem_append.mp hjmem with h | h
    · exact absurd h hjn
    · exact h
  have hrel : argLe keys i j := hcross i hi j hjdrop
  rcases hrel with h | ⟨h, _⟩
  · exact le_of_lt h
  · exact le_of_eq h

theorem getD_range_map {β : Type} (g : ℕ → β) (n b : ℕ) (d : β) (h : b < n) :
    ((List.range n).map g).getD b d = g b := by
  rw [List.getD_eq_getElem _ d (by simpa using h)]
  simp

theorem getD_map_of_lt {α β : Type} (f : α → β) (l : List α) (b : ℕ) (d : β) (d' : α)
    (h : b < l.length) :
    (l.map f).getD b d = f (l.getD b d') := by
  rw [List.getD_eq_getElem _ d (by simpa using h), List.getD_eq_getElem _ d' h,
    List.getElem_map]

theorem getD_mem_of_lt {α : Type} (l : List α) (b : ℕ) (d : α) (h : b < l.length) :
    l.getD b d ∈ l := by
  rw [List.getD_eq_getElem _ d h]
  exact List.getElem_mem h

/-- Summing a function over the entries of a list equals summing it over the
positions. -/
theorem map_sum_eq_range_sum (f : ℚ → ℚ) :
    ∀ row : List ℚ,
      (row.map f).sum = ((List.range row.length).map fun c => f (row.getD c 0)).sum
  | [] => rfl
  | x :: xs => by
    rw [List.map_cons, List.sum_cons, List.length_cons, List.range_succ_eq_map,
      List.map_cons, List.sum_cons, List.getD_cons_zero, List.map_map]
    have : ((List.range xs.length).map fun c =>
        f ((x :: xs).getD (Nat.succ c) 0)) = (List.range xs.length).map fun c =>
        f (xs.getD c 0) := by
      apply List.map_congr_left
      intro c _
      rw [List.getD_cons_succ]
    rw [Function.comp_def]
    simp only [List.getD_cons_succ]
    rw [map_sum_eq_range_sum f xs]

/-- Entrywise description of `npMeanAxis0` on a rectangular nonempty tensor. -/
theorem npMeanAxis0_spec (s : List (List (List ℚ))) (B C : ℕ)
    (hne : s ≠ []) (hB : ∀ sl ∈ s, sl.length = B)
    (hC : ∀ sl ∈ s, ∀ row ∈ sl, row.length = C) :
    (npMeanAxis0 s).length = B ∧
    ∀ b, b < B →
      ((npMeanAxis0 s).getD b []).length = C ∧
      ∀ c, c < C →
        ((npMeanAxis0 s).getD b []).getD c 0
          = (s.map fun t => (t.getD b []).getD c 0).sum / (s.length : ℚ) := by
  match s with
  | [] => exact absurd rfl hne
  | s0 :: rest =>
    have hs0 : s0.length = B := hB s0 (List.mem_cons_self _ _)
    constructor
    · rw [npMeanAxis0, List.length_map, List.length_range, hs0]
    · intro b hb
      have hbmem : (npMeanAxis0 (s0 :: rest)).getD b []
          = (List.range (s0.getD b []).length).map fun c =>
            ((s0 :: rest).map fun t => (t.getD b []).getD c 0).sum
              / ((s0 :: rest).length : ℚ) := by
        rw [npMeanAxis0]
        exact getD_range_map _ _ _ _ (hs0 ▸ hb)
      have hrowlen : (s0.getD b []).length = C :=
        hC s0 (List.mem_cons_self _ _) _ (getD_mem_of_lt s0 b [] (hs0 ▸ hb))
      constructor
      · rw [hbmem, List.length_map, List.length_range, hrowlen]
      · intro c hc
        rw [hbmem]
        exact getD_range_map _ _ _ _ (hrowlen ▸ hc)

/-- Entrywise description of `npMeanAxis0Mat` on a rectangular nonempty
matrix. -/
theorem npMeanAxis0Mat_spec (m : List (List ℚ)) (B : ℕ)
    (hne : m ≠ []) (hB : ∀ row ∈ m, row.length = B) :
    (npMeanAxis0Mat m).length = B ∧
    ∀ b, b < B →
      (npMeanAxis0Mat m).getD b 0
        = (m.map fun t => t.getD b 0).sum / (m.length : ℚ) := by
  match m with
  | [] => exact absurd rfl hne
  | m0 :: rest =>
    have hm0 : m0.length = B := hB m0 (List.mem_cons_self _ _)
    constructor
    · rw [npMeanAxis0Mat, List.length_map, List.length_range, hm0]
    · intro b hb
      rw [npMeanAxis0Mat]
      exact getD_range_map _ _ _ _ (hm0 ▸ hb)

/-! ### Unfolding lemmas for the strategies -/

theorem uniform_eq {α : Type} [Inhabited α] (choice : ℕ → ℕ → List ℕ)
    (X : List α) (n_instances : ℕ) (h : n_instances ≤ X.length) :
    uniform choice X n_instances
      = Except.ok (choice X.length n_instances,
          npIndex X (choice X.length n_instances)) := by
  rw [uniform, npChoice, if_pos h]
  rfl

theorem uniform_err {α : Type} [Inhabited α] (choice : ℕ → ℕ → List ℕ)
    (X : List α) (n_instances : ℕ) (h : X.length < n_instances) :
    uniform choice X n_instances
      = Except.error "ValueError: cannot take a larger sample than population when replace is False" := by
  rw [uniform, npChoice, if_neg (by omega)]
  rfl

theorem max_entropy_eq {α : Type} [Inhabited α] (choice : ℕ → ℕ → List ℕ)
    (MC_output : List α → Bool → ℕ → List (List ℚ)) (log : ℚ → ℚ)
    (X : List α) (n_instances T : ℕ) (h : 2000 ≤ X.length) :
    max_entropy choice MC_output log X n_instances T
      = Except.ok
          (npIndex (choice X.length 2000)
            ((npArgsort (npNeg
              ((npMeanAxis0 ((List.range T).map fun t =>
                MC_output (npIndex X (choice X.length 2000)) true t)).map fun row =>
                  -(row.map fun p => p * log (p + eps)).sum))).take n_instances),
           npIndex X
            (npIndex (choice X.length 2000)
              ((npArgsort (npNeg
                ((npMeanAxis0 ((List.range T).map fun t =>
                  MC_output (npIndex X (choice X.length 2000)) true t)).map fun row =>
                    -(row.map fun p => p * log (p + eps)).sum))).take n_instances))) := by
  rw [max_entropy, npChoice, if_pos h]
  rfl

theorem max_entropy_err {α : Type} [Inhabited α] (choice : ℕ → ℕ → List ℕ)
    (MC_output : List α → Bool → ℕ → List (List ℚ)) (log : ℚ → ℚ)
    (X : List α) (n_instances T : ℕ) (h : X.length < 2000) :
    max_entropy choice MC_output log X n_instances T
      = Except.error "ValueError: cannot take a larger sample than population when replace is False" := by
  rw [max_entropy, npChoice, if_neg (by omega)]
  rfl

theorem bald_eq {α : Type} [Inhabited α] (choice : ℕ → ℕ → List ℕ)
    (MC_output : List α → Bool → ℕ → List (List ℚ)) (log : ℚ → ℚ)
    (X : List α) (n_instances T : ℕ) (h : 2000 ≤ X.length) :
    bald choice MC_output log X n_instances T
      = Except.ok
          (npIndex (choice X.length 2000)
            ((npArgsort (npNeg
              (List.zipWith (fun a b => a - b)
                ((npMeanAxis0 ((List.range T).map fun t =>
                  MC_output (npIndex X (choice X.length 2000)) true t)).map fun row =>
                    -(row.map fun p => p * log (p + eps)).sum)
                (npNeg (npMeanAxis0Mat (((List.range T).map fun t =>
                  MC_output (npIndex X (choice X.length 2000)) true t).map fun slice =>
                    slice.map fun row =>
                      (row.map fun p => p * log (p + eps)).sum)))))).take n_instances),
           npIndex X
            (npIndex (choice X.length 2000)
              ((npArgsort (npNeg
                (List.zipWith (fun a b => a - b)
                  ((npMeanAxis0 ((List.range T).map fun t =>
                    MC_output (npIndex X (choice X.length 2000)) true t)).map fun row =>
                      -(row.map fun p => p * log (p + eps)).sum)
                  (npNeg (npMeanAxis0Mat (((List.range T).map fun t =>
                    MC_output (npIndex X (choice X.length 2000)) true t).map fun slice =>
                      slice.map fun row =>
                        (row.map fun p => p * log (p + eps)).sum)))))).take n_instances))) := by
  rw [bald, npChoice, if_pos h]
  rfl

theorem bald_err {α : Type} [Inhabited α] (choice : ℕ → ℕ → List ℕ)
    (MC_output : List α → Bool → ℕ → List (List ℚ)) (log : ℚ → ℚ)
    (X : List α) (n_instances T : ℕ) (h : X.length < 2000) :
    bald choice MC_output log X n_instances T
      = Except.error "ValueError: cannot take a larger sample than population when replace is False" := by
  rw [bald, npChoice, if_neg (by omega)]
  rfl

theorem var_ratio_eq {α : Type} [Inhabited α] (choice : ℕ → ℕ → List ℕ)
    (MC_output : List α → Bool → ℕ → List (List ℚ))
    (X : List α) (n_instances T : ℕ) (h : 2000 ≤ X.length) :
    var_ratio choice MC_output X n_instances T
      = Except.error "NameError: name a is not defined" := by
  rw [var_ratio, npChoice, if_pos h]
  rfl

theorem var_ratio_err {α : Type} [Inhabited α] (choice : ℕ → ℕ → List ℕ)
    (MC_output : List α → Bool → ℕ → List (List ℚ))
    (X : List α) (n_instances T : ℕ) (h : X.length < 2000) :
    var_ratio choice MC_output X n_instances T
      = Except.error "ValueError: cannot take a larger sample than population when replace is False" := by
  rw [var_ratio, npChoice, if_neg (by omega)]
  rfl

/-! ### Characterising the code-side acquisition pipelines -/

theorem mean_tensor_spec (MCfun : ℕ → List (List ℚ)) (T B C : ℕ) (hT : 0 < T)
    (hshape : ∀ t, t < T → (MCfun t).length = B ∧ ∀ row ∈ MCfun t, row.length = C) :
    (npMeanAxis0 ((List.range T).map MCfun)).length = B ∧
    ∀ b, b < B →
      ((npMeanAxis0 ((List.range T).map MCfun)).getD b []).length = C ∧
      ∀ c, c < C →
        ((npMeanAxis0 ((List.range T).map MCfun)).getD b []).getD c 0
          = specMeanProb MCfun T b c := by
  have hne : (List.range T).map MCfun ≠ [] := by
    simp only [ne_eq, List.map_eq_nil_iff, List.range_eq_nil]
    omega
  have hB : ∀ sl ∈ (List.range T).map MCfun, sl.length = B := by
    intro sl hsl
    obtain ⟨t, ht, rfl⟩ := List.mem_map.mp hsl
    exact (hshape t (List.mem_range.mp ht)).1
  have hC : ∀ sl ∈ (List.range T).map MCfun, ∀ row ∈ sl, row.length = C := by
    intro sl hsl
    obtain ⟨t, ht, rfl⟩ := List.mem_map.mp hsl
    exact (hshape t (List.mem_range.mp ht)).2
  obtain ⟨h1, h2⟩ := npMeanAxis0_spec _ B C hne hB hC
  refine ⟨h1, ?_⟩
  intro b hb
  obtain ⟨hlen, hent⟩ := h2 b hb
  refine ⟨hlen, ?_⟩
  intro c hc
  rw [hent c hc, specMeanProb, List.map_map, List.length_map, List.length_range]
  rfl

theorem entropy_acq_spec (MCfun : ℕ → List (List ℚ)) (log : ℚ → ℚ)
    (T B C : ℕ) (hT : 0 < T)
    (hshape : ∀ t, t < T → (MCfun t).length = B ∧ ∀ row ∈ MCfun t, row.length = C) :
    (((npMeanAxis0 ((List.range T).map MCfun)).map fun row =>
        -(row.map fun p => p * log (p + eps)).sum).length = B) ∧
    ∀ b, b < B →
      ((npMeanAxis0 ((List.range T).map MCfun)).map fun row =>
        -(row.map fun p => p * log (p + eps)).sum).getD b 0
        = specEntropy log MCfun T C b := by
  obtain ⟨h1, h2⟩ := mean_tensor_spec MCfun T B C hT hshape
  constructor
  · rw [List.length_map, h1]
  · intro b hb
    rw [getD_map_of_lt _ _ _ _ [] (h1 ▸ hb)]
    obtain ⟨hlen, hent⟩ := h2 b hb
    rw [map_sum_eq_range_sum, hlen, specEntropy]
    have : ((List.range C).map fun c =>
        ((npMeanAxis0 ((List.range T).map MCfun)).getD b []).getD c 0
          * log (((npMeanAxis0 ((List.range T).map MCfun)).getD b []).getD c 0 + eps))
        = (List.range C).map fun c =>
          specMeanProb MCfun T b c * log (specMeanProb MCfun T b c + eps) := by
      apply List.map_congr_left
      intro c hc
      rw [hent c (List.mem_range.mp hc)]
    rw [this]

theorem sum_map_neg_eq (l : List ℕ) (g : ℕ → ℚ) :
    (l.map fun t => -(g t)).sum = -((l.map g).sum) := by
  induction l with
  | nil => simp
  | cons x xs ih => simp [ih]; ring

theorem bald_acq_spec (MCfun : ℕ → List (List ℚ)) (log : ℚ → ℚ)
    (T B C : ℕ) (hT : 0 < T)
    (hshape : ∀ t, t < T → (MCfun t).length = B ∧ ∀ row ∈ MCfun t, row.length = C) :
    ((List.zipWith (fun a b => a - b)
        ((npMeanAxis0 ((List.range T).map MCfun)).map fun row =>
          -(row.map fun p => p * log (p + eps)).sum)
        (npNeg (npMeanAxis0Mat (((List.range T).map MCfun).map fun slice =>
          slice.map fun row => (row.map fun p => p * log (p + eps)).sum)))).length = B) ∧
    ∀ b, b < B →
      (List.zipWith (fun a b => a - b)
        ((npMeanAxis0 ((List.range T).map MCfun)).map fun row =>
          -(row.map fun p => p * log (p + eps)).sum)
        (npNeg (npMeanAxis0Mat (((List.range T).map MCfun).map fun slice =>
          slice.map fun row => (row.map fun p => p * log (p + eps)).sum)))).getD b 0
        = specBald log MCfun T C b := by
  obtain ⟨hel, hee⟩ := entropy_acq_spec MCfun log T B C hT hshape
  have hmatlen : ∀ row ∈ ((List.range T).map MCfun).map fun slice =>
      slice.map fun r => (r.map fun p => p * log (p + eps)).sum, row.length = B := by
    intro row hrow
    obtain ⟨slice, hslice, rfl⟩ := List.mem_map.mp hrow
    obtain ⟨t, ht, rfl⟩ := List.mem_map.mp hslice
    rw [List.length_map]
    exact (hshape t (List.mem_range.mp ht)).1
  have hmatne : (((List.range T).map MCfun).map fun slice =>
      slice.map fun r => (r.map fun p => p * log (p + eps)).sum) ≠ [] := by
    simp only [ne_eq, List.map_eq_nil_iff, List.range_eq_nil]
    omega
  obtain ⟨hml, hme⟩ := npMeanAxis0Mat_spec _ B hmatne hmatlen
  have hnl : (npNeg (npMeanAxis0Mat (((List.range T).map MCfun).map fun slice =>
      slice.map fun r => (r.map fun p => p * log (p + eps)).sum))).length = B := by
    rw [npNeg, List.length_map, hml]
  have hexp : ∀ b, b < B →
      (npNeg (npMeanAxis0Mat (((List.range T).map MCfun).map fun slice =>
        slice.map fun r => (r.map fun p => p * log (p + eps)).sum))).getD b 0
        = specMeanEntropy log MCfun T C b := by
    intro b hb
    rw [npNeg, getD_map_of_lt _ _ _ _ 0 (hml ▸ hb), hme b hb]
    have hinner : ((((List.range T).map MCfun).map fun slice =>
        slice.map fun r => (r.map fun p => p * log (p + eps)).sum).map fun t =>
          t.getD b 0)
        = (List.range T).map fun t => -(specSampleEntropy log MCfun C t b) := by
      rw [List.map_map, List.map_map]
      apply List.map_congr_left
      intro t ht
      have hbrow : b < (MCfun t).length :=
        (hshape t (List.mem_range.mp ht)).1 ▸ hb
      simp only [Function.comp_apply]
      rw [getD_map_of_lt _ _ _ _ [] hbrow]
      rw [map_sum_eq_range_sum, (hshape t (List.mem_range.mp ht)).2 _
        (getD_mem_of_lt _ b [] hbrow)]
      rw [specSampleEntropy, neg_neg]
    rw [hinner, sum_map_neg_eq, List.length_map, List.length_map, List.length_range,
      specMeanEntropy]
    rw [neg_div, neg_neg]
  constructor
  · rw [List.length_zipWith, hel, hnl, Nat.min_self]
  · intro b hb
    have hblt1 : b < (((npMeanAxis0 ((List.range T).map MCfun)).map fun row =>
        -(row.map fun p => p * log (p + eps)).sum)).length := hel ▸ hb
    have hblt2 : b < (npNeg (npMeanAxis0Mat (((List.range T).map MCfun).map fun slice =>
        slice.map fun r => (r.map fun p => p * log (p + eps)).sum))).length := hnl ▸ hb
    rw [List.getD_eq_getElem _ 0 (by rw [List.length_zipWith, hel, hnl, Nat.min_self]; exact hb),
      List.getElem_zipWith]
    rw [← List.getD_eq_getElem _ 0 hblt1, ← List.getD_eq_getElem _ 0 hblt2]
    rw [hee b hb, hexp b hb, specBald]

/-- Selecting the first `n` positions of the descending argsort of an
acquisition vector whose entries are described by `spec` yields `n` distinct
valid positions whose scores dominate all unselected positions. -/
theorem topn_desc_spec (acq : List ℚ) (spec : ℕ → ℚ) (n B : ℕ)
    (hlen : acq.length = B)
    (hentry : ∀ b, b < B → acq.getD b 0 = spec b)
    (hn : n ≤ B) :
    ((npArgsort (npNeg acq)).take n).length = n ∧
    ((npArgsort (npNeg acq)).take n).Nodup ∧
    (∀ i ∈ (npArgsort (npNeg acq)).take n, i < B) ∧
    ∀ i ∈ (npArgsort (npNeg acq)).take n, ∀ j, j < B →
      j ∉ (npArgsort (npNeg acq)).take n → spec j ≤ spec i := by
  have hkl : (npNeg acq).length = B := by rw [npNeg, List.length_map, hlen]
  obtain ⟨hnd, hlen2, hmem, hcmp⟩ := argsort_take_spec (npNeg acq) n
  rw [hkl] at hlen2 hmem hcmp
  refine ⟨by rw [hlen2]; exact Nat.min_eq_left hn, hnd, hmem, ?_⟩
  intro i hi j hj hjn
  have h1 := hcmp i hi j hj hjn
  have hkey : ∀ b, b < B → (npNeg acq).getD b 0 = -(spec b) := by
    intro b hb
    rw [npNeg, getD_map_of_lt _ _ _ _ 0 (hlen ▸ hb), hentry b hb]
  rw [hkey i (hmem i hi), hkey j hj] at h1
  linarith

theorem npIndex_length {α : Type} [Inhabited α] (X : List α) (idx : List ℕ) :
    (npIndex X idx).length = idx.length := by
  rw [npIndex, List.length_map]

theorem npIndex_getD {α : Type} [Inhabited α] (X : List α) (idx : List ℕ) (r : ℕ)
    (h : r < idx.length) :
    (npIndex X idx).getD r default = X.getD (idx.getD r 0) default := by
  rw [npIndex]
  exact getD_map_of_lt _ _ _ _ 0 h

theorem npIndex_nodup (sub sel : List ℕ) (hsub : sub.Nodup) (hsel : sel.Nodup)
    (hlt : ∀ i ∈ sel, i < sub.length) : (npIndex sub sel).Nodup := by
  rw [npIndex]
  refine List.Nodup.map_on ?_ hsel
  intro i hi j hj hij
  have hi2 := hlt i hi
  have hj2 := hlt j hj
  rw [List.getD_eq_getElem _ _ hi2, List.getD_eq_getElem _ _ hj2] at hij
  exact hsub.getElem_inj_iff.mp hij

theorem npIndex_mem {α : Type} [Inhabited α] (X : List α) (sel : List ℕ)
    (hlt : ∀ i ∈ sel, i < X.length) : ∀ x ∈ npIndex X sel, x ∈ X := by
  intro x hx
  rw [npIndex] at hx
  obtain ⟨i, hi, rfl⟩ := List.mem_map.mp hx
  exact getD_mem_of_lt X i default (hlt i hi)

/-! ### Claim theorems -/

/-- C1: for every Monte-Carlo sample tensor of shape `[T, batch, classes]`
(delivered through the forward-pass oracle), `max_entropy` scores each point
of the 2000-element random subset by the predictive entropy of the mean of
its `T` sampled class distributions — `-∑ c, pbar(b,c)·log(pbar(b,c)+1e-10)`
with `pbar` the mean over the `T` samples (`specEntropy`) — and returns the
pool indices of the `n_instances` points with the largest such score together
with those points. -/
theorem C1_max_entropy_spec {α : Type} [Inhabited α]
    (choice : ℕ → ℕ → List ℕ) (MC_output : List α → Bool → ℕ → List (List ℚ))
    (log : ℚ → ℚ) (X : List α) (n_instances T C : ℕ)
    (hX : 2000 ≤ X.length) (hT : 0 < T) (hn : n_instances ≤ 2000)
    (hshape : ∀ t, t < T →
      (MC_output (npIndex X (choice X.length 2000)) true t).length = 2000 ∧
      ∀ row ∈ MC_output (npIndex X (choice X.length 2000)) true t, row.length = C) :
    ∃ sel : List ℕ,
      max_entropy choice MC_output log X n_instances T
        = Except.ok (npIndex (choice X.length 2000) sel,
            npIndex X (npIndex (choice X.length 2000) sel)) ∧
      sel.length = n_instances ∧ sel.Nodup ∧ (∀ i ∈ sel, i < 2000) ∧
      ∀ i ∈ sel, ∀ j, j < 2000 → j ∉ sel →
        specEntropy log (fun t => MC_output (npIndex X (choice X.length 2000)) true t) T C j
          ≤ specEntropy log (fun t => MC_output (npIndex X (choice X.length 2000)) true t) T C i := by
  obtain ⟨hal, hae⟩ := entropy_acq_spec
    (fun t => MC_output (npIndex X (choice X.length 2000)) true t) log T 2000 C hT hshape
  obtain ⟨hl, hnd, hmem, hcmp⟩ := topn_desc_spec _
    (specEntropy log (fun t => MC_output (npIndex X (choice X.length 2000)) true t) T C)
    n_instances 2000 hal hae hn
  exact ⟨_, max_entropy_eq choice MC_output log X n_instances T hX, hl, hnd, hmem, hcmp⟩

/-- C2: for every Monte-Carlo sample tensor of shape `[T, batch, classes]`,
`bald` scores each subsampled pool point by the mutual information between
predictions and model parameters — the entropy of the mean predictive
distribution minus the mean of the per-sample entropies, both with the
`1e-10` smoothing inside the log (`specBald`) — and returns the
`n_instances` points with the largest such score. -/
theorem C2_bald_spec {α : Type} [Inhabited α]
    (choice : ℕ → ℕ → List ℕ) (MC_output : List α → Bool → ℕ → List (List ℚ))
    (log : ℚ → ℚ) (X : List α) (n_instances T C : ℕ)
    (hX : 2000 ≤ X.length) (hT : 0 < T) (hn : n_instances ≤ 2000)
    (hshape : ∀ t, t < T →
      (MC_output (npIndex X (choice X.length 2000)) true t).length = 2000 ∧
      ∀ row ∈ MC_output (npIndex X (choice X.length 2000)) true t, row.length = C) :
    ∃ sel : List ℕ,
      bald choice MC_output log X n_instances T
        = Except.ok (npIndex (choice X.length 2000) sel,
            npIndex X (npIndex (choice X.length 2000) sel)) ∧
      sel.length = n_instances ∧ sel.Nodup ∧ (∀ i ∈ sel, i < 2000) ∧
      ∀ i ∈ sel, ∀ j, j < 2000 → j ∉ sel →
        specBald log (fun t => MC_output (npIndex X (choice X.length 2000)) true t) T C j
          ≤ specBald log (fun t => MC_output (npIndex X (choice X.length 2000)) true t) T C i := by
  obtain ⟨hal, hae⟩ := bald_acq_spec
    (fun t => MC_output (npIndex X (choice X.length 2000)) true t) log T 2000 C hT hshape
  obtain ⟨hl, hnd, hmem, hcmp⟩ := topn_desc_spec _
    (specBald log (fun t => MC_output (npIndex X (choice X.length 2000)) true t) T C)
    n_instances 2000 hal hae hn
  exact ⟨_, bald_eq choice MC_output log X n_instances T hX, hl, hnd, hmem, hcmp⟩

/-- Witness for C1 at a concrete input: a pool of 2000 points, one
Monte-Carlo sample, one class. -/
theorem C1_max_entropy_spec_witness :
    2000 ≤ (List.replicate 2000 ()).length ∧ 0 < 1 ∧ 1 ≤ 2000 ∧
    (∀ t, t < 1 → (List.replicate 2000 [(1 : ℚ)]).length = 2000 ∧
      ∀ row ∈ List.replicate 2000 [(1 : ℚ)], row.length = 1) ∧
    ∃ sel : List ℕ,
      max_entropy (fun _ k => List.range k)
          (fun _ _ _ => List.replicate 2000 [(1 : ℚ)]) (fun q => q)
          (List.replicate 2000 ()) 1 1
        = Except.ok (npIndex (List.range 2000) sel,
            npIndex (List.replicate 2000 ()) (npIndex (List.range 2000) sel)) ∧
      sel.length = 1 ∧ sel.Nodup ∧ (∀ i ∈ sel, i < 2000) ∧
      ∀ i ∈ sel, ∀ j, j < 2000 → j ∉ sel →
        specEntropy (fun q => q) (fun _ => List.replicate 2000 [(1 : ℚ)]) 1 1 j
          ≤ specEntropy (fun q => q) (fun _ => List.replicate 2000 [(1 : ℚ)]) 1 1 i := by
  have hsh : ∀ t, t < 1 → (List.replicate 2000 [(1 : ℚ)]).length = 2000 ∧
      ∀ row ∈ List.replicate 2000 [(1 : ℚ)], row.length = 1 := by
    intro t _
    refine ⟨List.length_replicate _ _, ?_⟩
    intro row hrow
    rw [List.eq_of_mem_replicate hrow]
    rfl
  exact ⟨le_of_eq (List.length_replicate _ _).symm, Nat.one_pos, by omega, hsh,
    C1_max_entropy_spec (fun _ k => List.range k)
      (fun _ _ _ => List.replicate 2000 [(1 : ℚ)]) (fun q => q)
      (List.replicate 2000 ()) 1 1 1 (le_of_eq (List.length_replicate _ _).symm)
      Nat.one_pos (by omega) hsh⟩

/-- Witness for C2 at a concrete input: a pool of 2000 points, one
Monte-Carlo sample, one class. -/
theorem C2_bald_spec_witness :
    2000 ≤ (List.replicate 2000 ()).length ∧ 0 < 1 ∧ 1 ≤ 2000 ∧
    (∀ t, t < 1 → (List.replicate 2000 [(1 : ℚ)]).length = 2000 ∧
      ∀ row ∈ List.replicate 2000 [(1 : ℚ)], row.length = 1) ∧
    ∃ sel : List ℕ,
      bald (fun _ k => List.range k)
          (fun _ _ _ => List.replicate 2000 [(1 : ℚ)]) (fun q => q)
          (List.replicate 2000 ()) 1 1
        = Except.ok (npIndex (List.range 2000) sel,
            npIndex (List.replicate 2000 ()) (npIndex (List.range 2000) sel)) ∧
      sel.length = 1 ∧ sel.Nodup ∧ (∀ i ∈ sel, i < 2000) ∧
      ∀ i ∈ sel, ∀ j, j < 2000 → j ∉ sel →
        specBald (fun q => q) (fun _ => List.replicate 2000 [(1 : ℚ)]) 1 1 j
          ≤ specBald (fun q => q) (fun _ => List.replicate 2000 [(1 : ℚ)]) 1 1 i := by
  have hsh : ∀ t, t < 1 → (List.replicate 2000 [(1 : ℚ)]).length = 2000 ∧
      ∀ row ∈ List.replicate 2000 [(1 : ℚ)], row.length = 1 := by
    intro t _
    refine ⟨List.length_replicate _ _, ?_⟩
    intro row hrow
    rw [List.eq_of_mem_replicate hrow]
    rfl
  exact ⟨le_of_eq (List.length_replicate _ _).symm, Nat.one_pos, by omega, hsh,
    C2_bald_spec (fun _ k => List.range k)
      (fun _ _ _ => List.replicate 2000 [(1 : ℚ)]) (fun q => q)
      (List.replicate 2000 ()) 1 1 1 (le_of_eq (List.length_replicate _ _).symm)
      Nat.one_pos (by omega) hsh⟩

theorem npMeanAxis0_length_ne (s : List (List (List ℚ))) (B : ℕ)
    (hne : s ≠ []) (hB : ∀ sl ∈ s, sl.length = B) :
    (npMeanAxis0 s).length = B := by
  match s with
  | [] => exact absurd rfl hne
  | s0 :: rest =>
    rw [npMeanAxis0, List.length_map, List.length_range]
    exact hB s0 (List.mem_cons_self _ _)

theorem take_argsort_lt (keys : List ℚ) (n : ℕ) :
    ∀ i ∈ (npArgsort keys).take n, i < keys.length :=
  (argsort_take_spec keys n).2.2.1

/-- A convenient valid instantiation of the `np.random.choice` oracle. -/
theorem validChoice_range : ValidChoice (fun _ k => List.range k) := by
  intro n k hk
  refine ⟨List.length_range k, List.nodup_range k, ?_⟩
  intro i hi
  exact lt_of_lt_of_le (List.mem_range.mp hi) hk

/-- C8: each of `max_entropy`, `var_ratio` and `bald` first draws a random
subset of exactly 2000 distinct valid pool indices and can only return
indices belonging to that subset; each of the three fails with `ValueError`
when the pool holds fewer than 2000 points, and `uniform` fails when
`n_instances` exceeds the pool size. -/
theorem C8_subset_preconditions {α : Type} [Inhabited α]
    (choice : ℕ → ℕ → List ℕ) (MC_output : List α → Bool → ℕ → List (List ℚ))
    (log : ℚ → ℚ) (X : List α) (n_instances T : ℕ)
    (hval : ValidChoice choice)
    (hshape : ∀ t, t < T →
      (MC_output (npIndex X (choice X.length 2000)) true t).length = 2000) :
    (2000 ≤ X.length →
      (choice X.length 2000).length = 2000 ∧ (choice X.length 2000).Nodup ∧
      (∀ i ∈ choice X.length 2000, i < X.length) ∧
      (∀ qidx qinst, max_entropy choice MC_output log X n_instances T
          = Except.ok (qidx, qinst) → ∀ i ∈ qidx, i ∈ choice X.length 2000) ∧
      (∀ qidx qinst, bald choice MC_output log X n_instances T
          = Except.ok (qidx, qinst) → ∀ i ∈ qidx, i ∈ choice X.length 2000)) ∧
    (X.length < 2000 →
      max_entropy choice MC_output log X n_instances T
        = Except.error "ValueError: cannot take a larger sample than population when replace is False" ∧
      var_ratio choice MC_output X n_instances T
        = Except.error "ValueError: cannot take a larger sample than population when replace is False" ∧
      bald choice MC_output log X n_instances T
        = Except.error "ValueError: cannot take a larger sample than population when replace is False") ∧
    (X.length < n_instances →
      uniform choice X n_instances
        = Except.error "ValueError: cannot take a larger sample than population when replace is False") := by
  refine ⟨?_, ?_, fun h => uniform_err choice X n_instances h⟩
  · intro hX
    obtain ⟨hcl, hcn, hclt⟩ := hval X.length 2000 hX
    have hmean_le : (npMeanAxis0 ((List.range T).map fun t =>
        MC_output (npIndex X (choice X.length 2000)) true t)).length ≤ 2000 := by
      by_cases hT0 : T = 0
      · subst hT0
        exact Nat.zero_le 2000
      · rw [npMeanAxis0_length_ne _ 2000 ?hne ?hB]
        case hne =>
          simp only [ne_eq, List.map_eq_nil_iff, List.range_eq_nil]
          exact hT0
        case hB =>
          intro sl hsl
          obtain ⟨t, ht, rfl⟩ := List.mem_map.mp hsl
          exact hshape t (List.mem_range.mp ht)
    have hsubmem : ∀ (sel : List ℕ), (∀ j ∈ sel, j < 2000) →
        ∀ i ∈ npIndex (choice X.length 2000) sel, i ∈ choice X.length 2000 := by
      intro sel hsel i hi
      rw [npIndex] at hi
      obtain ⟨j, hj, rfl⟩ := List.mem_map.mp hi
      have hjlt : j < (choice X.length 2000).length := by
        rw [hcl]
        exact hsel j hj
      exact getD_mem_of_lt _ j default hjlt
    refine ⟨hcl, hcn, hclt, ?_, ?_⟩
    · intro qidx qinst hok
      rw [max_entropy_eq choice MC_output log X n_instances T hX] at hok
      injection hok with hpair
      injection hpair with h1 h2
      subst h1
      apply hsubmem
      intro j hj
      have hlt := take_argsort_lt _ n_instances j hj
      rw [npNeg, List.length_map, List.length_map] at hlt
      omega
    · intro qidx qinst hok
      rw [bald_eq choice MC_output log X n_instances T hX] at hok
      injection hok with hpair
      injection hpair with h1 h2
      subst h1
      apply hsubmem
      intro j hj
      have hlt := take_argsort_lt _ n_instances j hj
      rw [npNeg, List.length_map, List.length_zipWith, List.length_map] at hlt
      have := Nat.min_le_left
        ((npMeanAxis0 ((List.range T).map fun t =>
          MC_output (npIndex X (choice X.length 2000)) true t)).length)
        ((npNeg (npMeanAxis0Mat (((List.range T).map fun t =>
          MC_output (npIndex X (choice X.length 2000)) true t).map fun slice =>
            slice.map fun row =>
              (row.map fun p => p * log (p + eps)).sum))).length)
      omega
  · intro hX
    exact ⟨max_entropy_err choice MC_output log X n_instances T hX,
      var_ratio_err choice MC_output X n_instances T hX,
      bald_err choice MC_output log X n_instances T hX⟩

theorem npIndex_query_props {α : Type} [Inhabited α] (X : List α) (sub sel : List ℕ)
    (hsubn : sub.Nodup) (hsublen : sub.length = 2000) (hsublt : ∀ i ∈ sub, i < X.length)
    (hseln : sel.Nodup) (hsellt : ∀ j ∈ sel, j < 2000) :
    (npIndex sub sel).Nodup ∧ (∀ i ∈ npIndex sub sel, i < X.length) ∧
    (npIndex sub sel).length = sel.length := by
  have hsellt2 : ∀ j ∈ sel, j < sub.length := by
    intro j hj
    rw [hsublen]
    exact hsellt j hj
  refine ⟨npIndex_nodup sub sel hsubn hseln hsellt2, ?_, npIndex_length sub sel⟩
  intro i hi
  rw [npIndex] at hi
  obtain ⟨j, hj, rfl⟩ := List.mem_map.mp hi
  exact hsublt _ (getD_mem_of_lt _ j default (hsellt2 j hj))

/-- C10: every normally returning query strategy returns a self-consistent
pair: `query_instance` is `X` indexed row-by-row at `query_idx`, and
`query_idx` consists of exactly `n_instances` pairwise-distinct valid indices
into `X`. -/
theorem C10_query_consistency {α : Type} [Inhabited α]
    (choice : ℕ → ℕ → List ℕ) (MC_output : List α → Bool → ℕ → List (List ℚ))
    (log : ℚ → ℚ) (X : List α) (n_instances T : ℕ)
    (hval : ValidChoice choice) (hT : 0 < T) (hn : n_instances ≤ 2000)
    (hshape : ∀ t, t < T →
      (MC_output (npIndex X (choice X.length 2000)) true t).length = 2000) :
    (n_instances ≤ X.length →
      ∃ qidx qinst, uniform choice X n_instances = Except.ok (qidx, qinst) ∧
        qinst = npIndex X qidx ∧ qidx.length = n_instances ∧ qidx.Nodup ∧
        (∀ i ∈ qidx, i < X.length) ∧
        ∀ r, r < qidx.length → qinst.getD r default = X.getD (qidx.getD r 0) default) ∧
    (2000 ≤ X.length →
      (∃ qidx qinst,
        max_entropy choice MC_output log X n_instances T = Except.ok (qidx, qinst) ∧
        qinst = npIndex X qidx ∧ qidx.length = n_instances ∧ qidx.Nodup ∧
        (∀ i ∈ qidx, i < X.length) ∧
        ∀ r, r < qidx.length → qinst.getD r default = X.getD (qidx.getD r 0) default) ∧
      ∃ qidx qinst,
        bald choice MC_output log X n_instances T = Except.ok (qidx, qinst) ∧
        qinst = npIndex X qidx ∧ qidx.length = n_instances ∧ qidx.Nodup ∧
        (∀ i ∈ qidx, i < X.length) ∧
        ∀ r, r < qidx.length → qinst.getD r default = X.getD (qidx.getD r 0) default) := by
  constructor
  · intro hle
    obtain ⟨hcl, hcn, hclt⟩ := hval X.length n_instances hle
    refine ⟨_, _, uniform_eq choice X n_instances hle, rfl, hcl, hcn, hclt, ?_⟩
    intro r hr
    exact npIndex_getD X _ r hr
  · intro hX
    obtain ⟨hcl, hcn, hclt⟩ := hval X.length 2000 hX
    have hTne : (List.range T).map (fun t =>
        MC_output (npIndex X (choice X.length 2000)) true t) ≠ [] := by
      simp only [ne_eq, List.map_eq_nil_iff, List.range_eq_nil]
      omega
    have hB : ∀ sl ∈ (List.range T).map (fun t =>
        MC_output (npIndex X (choice X.length 2000)) true t), sl.length = 2000 := by
      intro sl hsl
      obtain ⟨t, ht, rfl⟩ := List.mem_map.mp hsl
      exact hshape t (List.mem_range.mp ht)
    have hmean : (npMeanAxis0 ((List.range T).map fun t =>
        MC_output (npIndex X (choice X.length 2000)) true t)).length = 2000 :=
      npMeanAxis0_length_ne _ 2000 hTne hB
    constructor
    · -- max_entropy
      have hkeys : (npNeg ((npMeanAxis0 ((List.range T).map fun t =>
          MC_output (npIndex X (choice X.length 2000)) true t)).map fun row =>
            -(row.map fun p => p * log (p + eps)).sum)).length = 2000 := by
        rw [npNeg, List.length_map, List.length_map, hmean]
      obtain ⟨hselnd, hsellen, hsellt, _⟩ := argsort_take_spec (npNeg
        ((npMeanAxis0 ((List.range T).map fun t =>
          MC_output (npIndex X (choice X.length 2000)) true t)).map fun row =>
            -(row.map fun p => p * log (p + eps)).sum)) n_instances
      rw [hkeys] at hsellen hsellt
      obtain ⟨hqnd, hqlt, hqlen⟩ := npIndex_query_props X (choice X.length 2000) _
        hcn hcl hclt hselnd hsellt
      refine ⟨_, _, max_entropy_eq choice MC_output log X n_instances T hX, rfl,
        ?_, hqnd, hqlt, ?_⟩
      · rw [hqlen, hsellen]
        exact Nat.min_eq_left hn
      · intro r hr
        exact npIndex_getD X _ r hr
    · -- bald
      have hmatne : (((List.range T).map fun t =>
          MC_output (npIndex X (choice X.length 2000)) true t).map fun slice =>
            slice.map fun r => (r.map fun p => p * log (p + eps)).sum) ≠ [] := by
        simp only [ne_eq, List.map_eq_nil_iff, List.range_eq_nil]
        omega
      have hmatB : ∀ row ∈ (((List.range T).map fun t =>
          MC_output (npIndex X (choice X.length 2000)) true t).map fun slice =>
            slice.map fun r => (r.map fun p => p * log (p + eps)).sum),
          row.length = 2000 := by
        intro row hrow
        obtain ⟨slice, hslice, rfl⟩ := List.mem_map.mp hrow
        rw [List.length_map]
        exact hB slice hslice
      have hmat : (npMeanAxis0Mat (((List.range T).map fun t =>
          MC_output (npIndex X (choice X.length 2000)) true t).map fun slice =>
            slice.map fun r => (r.map fun p => p * log (p + eps)).sum)).length = 2000 :=
        (npMeanAxis0Mat_spec _ 2000 hmatne hmatB).1
      have hkeys : (npNeg (List.zipWith (fun a b => a - b)
          ((npMeanAxis0 ((List.range T).map fun t =>
            MC_output (npIndex X (choice X.length 2000)) true t)).map fun row =>
              -(row.map fun p => p * log (p + eps)).sum)
          (npNeg (npMeanAxis0Mat (((List.range T).map fun t =>
            MC_output (npIndex X (choice X.length 2000)) true t).map fun slice =>
              slice.map fun r => (r.map fun p => p * log (p + eps)).sum))))).length
          = 2000 := by
        rw [npNeg, List.length_map, List.length_zipWith, List.length_map, hmean,
          npNeg, List.length_map, hmat, Nat.min_self]
      obtain ⟨hselnd, hsellen, hsellt, _⟩ := argsort_take_spec (npNeg
        (List.zipWith (fun a b => a - b)
          ((npMeanAxis0 ((List.range T).map fun t =>
            MC_output (npIndex X (choice X.length 2000)) true t)).map fun row =>
              -(row.map fun p => p * log (p + eps)).sum)
          (npNeg (npMeanAxis0Mat (((List.range T).map fun t =>
            MC_output (npIndex X (choice X.length 2000)) true t).map fun slice =>
              slice.map fun r => (r.map fun p => p * log (p + eps)).sum)))))
        n_instances
      rw [hkeys] at hsellen hsellt
      obtain ⟨hqnd, hqlt, hqlen⟩ := npIndex_query_props X (choice X.length 2000) _
        hcn hcl hclt hselnd hsellt
      refine ⟨_, _, bald_eq choice MC_output log X n_instances T hX, rfl,
        ?_, hqnd, hqlt, ?_⟩
      · rw [hqlen, hsellen]
        exact Nat.min_eq_left hn
      · intro r hr
        exact npIndex_getD X _ r hr

/-- Witness for C8 at a concrete input. -/
theorem C8_subset_preconditions_witness :
    ValidChoice (fun _ k => List.range k) ∧
    (∀ t, t < 1 → (List.replicate 2000 [(1 : ℚ)]).length = 2000) ∧
    ((2000 ≤ (List.replicate 2000 (() : Unit)).length →
      (List.range 2000).length = 2000 ∧ (List.range 2000).Nodup ∧
      (∀ i ∈ List.range 2000, i < (List.replicate 2000 (() : Unit)).length) ∧
      (∀ qidx qinst, max_entropy (fun _ k => List.range k)
          (fun _ _ _ => List.replicate 2000 [(1 : ℚ)]) (fun q => q)
          (List.replicate 2000 (() : Unit)) 1 1 = Except.ok (qidx, qinst) →
        ∀ i ∈ qidx, i ∈ List.range 2000) ∧
      (∀ qidx qinst, bald (fun _ k => List.range k)
          (fun _ _ _ => List.replicate 2000 [(1 : ℚ)]) (fun q => q)
          (List.replicate 2000 (() : Unit)) 1 1 = Except.ok (qidx, qinst) →
        ∀ i ∈ qidx, i ∈ List.range 2000)) ∧
    ((List.replicate 2000 (() : Unit)).length < 2000 →
      max_entropy (fun _ k => List.range k)
          (fun _ _ _ => List.replicate 2000 [(1 : ℚ)]) (fun q => q)
          (List.replicate 2000 (() : Unit)) 1 1
        = Except.error "ValueError: cannot take a larger sample than population when replace is False" ∧
      var_ratio (fun _ k => List.range k)
          (fun _ _ _ => List.replicate 2000 [(1 : ℚ)])
          (List.replicate 2000 (() : Unit)) 1 1
        = Except.error "ValueError: cannot take a larger sample than population when replace is False" ∧
      bald (fun _ k => List.range k)
          (fun _ _ _ => List.replicate 2000 [(1 : ℚ)]) (fun q => q)
          (List.replicate 2000 (() : Unit)) 1 1
        = Except.error "ValueError: cannot take a larger sample than population when replace is False") ∧
    ((List.replicate 2000 (() : Unit)).length < 1 →
      uniform (fun _ k => List.range k) (List.replicate 2000 (() : Unit)) 1
        = Except.error "ValueError: cannot take a larger sample than population when replace is False")) :=
  ⟨validChoice_range, fun _ _ => List.length_replicate _ _,
    C8_subset_preconditions (fun _ k => List.range k)
      (fun _ _ _ => List.replicate 2000 [(1 : ℚ)]) (fun q => q)
      (List.replicate 2000 ()) 1 1 validChoice_range
      (fun _ _ => List.length_replicate _ _)⟩

/-- Witness for C10 at a concrete input. -/
theorem C10_query_consistency_witness :
    ValidChoice (fun _ k => List.range k) ∧ 0 < 1 ∧ 1 ≤ 2000 ∧
    (∀ t, t < 1 → (List.replicate 2000 [(1 : ℚ)]).length = 2000) ∧
    ((1 ≤ (List.replicate 2000 (() : Unit)).length →
      ∃ qidx qinst, uniform (fun _ k => List.range k)
          (List.replicate 2000 (() : Unit)) 1 = Except.ok (qidx, qinst) ∧
        qinst = npIndex (List.replicate 2000 (() : Unit)) qidx ∧
        qidx.length = 1 ∧ qidx.Nodup ∧
        (∀ i ∈ qidx, i < (List.replicate 2000 (() : Unit)).length) ∧
        ∀ r, r < qidx.length → qinst.getD r default
          = (List.replicate 2000 (() : Unit)).getD (qidx.getD r 0) default) ∧
    (2000 ≤ (List.replicate 2000 (() : Unit)).length →
      (∃ qidx qinst, max_entropy (fun _ k => List.range k)
          (fun _ _ _ => List.replicate 2000 [(1 : ℚ)]) (fun q => q)
          (List.replicate 2000 (() : Unit)) 1 1 = Except.ok (qidx, qinst) ∧
        qinst = npIndex (List.replicate 2000 (() : Unit)) qidx ∧
        qidx.length = 1 ∧ qidx.Nodup ∧
        (∀ i ∈ qidx, i < (List.replicate 2000 (() : Unit)).length) ∧
        ∀ r, r < qidx.length → qinst.getD r default
          = (List.replicate 2000 (() : Unit)).getD (qidx.getD r 0) default) ∧
      ∃ qidx qinst, bald (fun _ k => List.range k)
          (fun _ _ _ => List.replicate 2000 [(1 : ℚ)]) (fun q => q)
          (List.replicate 2000 (() : Unit)) 1 1 = Except.ok (qidx, qinst) ∧
        qinst = npIndex (List.replicate 2000 (() : Unit)) qidx ∧
        qidx.length = 1 ∧ qidx.Nodup ∧
        (∀ i ∈ qidx, i < (List.replicate 2000 (() : Unit)).length) ∧
        ∀ r, r < qidx.length → qinst.getD r default
          = (List.replicate 2000 (() : Unit)).getD (qidx.getD r 0) default)) :=
  ⟨validChoice_range, Nat.one_pos, by omega,
    fun _ _ => List.length_replicate _ _,
    C10_query_consistency (fun _ k => List.range k)
      (fun _ _ _ => List.replicate 2000 [(1 : ℚ)]) (fun q => q)
      (List.replicate 2000 ()) 1 1 validChoice_range Nat.one_pos (by omega)
      (fun _ _ => List.length_replicate _ _)⟩

/-- C3: evaluating `var_ratio` on a concrete 2000-point pool (any valid
input) raises `NameError`, because its body reads the undefined name `a`;
no variation-ratio acquisition value is ever computed, contradicting the
claim that `var_ratio` successfully computes `1 - count/T` and returns the
top-`n_instances` points. -/
theorem C3_var_ratio_raises :
    var_ratio (fun _ k => List.range k)
        (fun _ _ _ => List.replicate 2000 [(1 : ℚ)])
        (List.replicate 2000 (() : Unit)) 10 100
      = Except.error "NameError: name a is not defined" :=
  var_ratio_eq (fun _ k => List.range k)
    (fun _ _ _ => List.replicate 2000 [(1 : ℚ)])
    (List.replicate 2000 ()) 10 100
    (le_of_eq (List.length_replicate _ _).symm)

/-- C6: the three uncertainty strategies evaluate the network only through
Monte-Carlo forward passes with the learning phase set to `true` and draw
index below `T` (two oracles agreeing on those calls give identical
results), and for `max_entropy` and `bald` the returned query is the
descending-acquisition top-`n_instances` of the evaluated candidates;
`var_ratio`, however, fails with `NameError` instead of returning a query. -/
theorem C6_mc_dropout_topn {α : Type} [Inhabited α]
    (choice : ℕ → ℕ → List ℕ) (f g : List α → Bool → ℕ → List (List ℚ))
    (log : ℚ → ℚ) (X : List α) (n_instances T C : ℕ)
    (hT : 0 < T) (hn : n_instances ≤ 2000)
    (hagree : ∀ t, t < T →
      f (npIndex X (choice X.length 2000)) true t
        = g (npIndex X (choice X.length 2000)) true t)
    (hshape : ∀ t, t < T →
      (f (npIndex X (choice X.length 2000)) true t).length = 2000 ∧
      ∀ row ∈ f (npIndex X (choice X.length 2000)) true t, row.length = C) :
    (max_entropy choice f log X n_instances T
        = max_entropy choice g log X n_instances T ∧
      var_ratio choice f X n_instances T = var_ratio choice g X n_instances T ∧
      bald choice f log X n_instances T = bald choice g log X n_instances T) ∧
    (2000 ≤ X.length →
      (∃ sel : List ℕ,
        max_entropy choice f log X n_instances T
          = Except.ok (npIndex (choice X.length 2000) sel,
              npIndex X (npIndex (choice X.length 2000) sel)) ∧
        sel.length = n_instances ∧
        ∀ i ∈ sel, ∀ j, j < 2000 → j ∉ sel →
          specEntropy log (fun t => f (npIndex X (choice X.length 2000)) true t) T C j
            ≤ specEntropy log (fun t => f (npIndex X (choice X.length 2000)) true t) T C i) ∧
      (∃ sel : List ℕ,
        bald choice f log X n_instances T
          = Except.ok (npIndex (choice X.length 2000) sel,
              npIndex X (npIndex (choice X.length 2000) sel)) ∧
        sel.length = n_instances ∧
        ∀ i ∈ sel, ∀ j, j < 2000 → j ∉ sel →
          specBald log (fun t => f (npIndex X (choice X.length 2000)) true t) T C j
            ≤ specBald log (fun t => f (npIndex X (choice X.length 2000)) true t) T C i) ∧
      var_ratio choice f X n_instances T
        = Except.error "NameError: name a is not defined") := by
  have htens : ((List.range T).map fun t =>
      f (npIndex X (choice X.length 2000)) true t)
      = (List.range T).map fun t =>
        g (npIndex X (choice X.length 2000)) true t :=
    List.map_congr_left fun t ht => hagree t (List.mem_range.mp ht)
  constructor
  · by_cases hX : 2000 ≤ X.length
    · refine ⟨?_, ?_, ?_⟩
      · rw [max_entropy_eq choice f log X n_instances T hX,
          max_entropy_eq choice g log X n_instances T hX, htens]
      · rw [var_ratio_eq choice f X n_instances T hX,
          var_ratio_eq choice g X n_instances T hX]
      · rw [bald_eq choice f log X n_instances T hX,
          bald_eq choice g log X n_instances T hX, htens]
    · have hX2 : X.length < 2000 := by omega
      refine ⟨?_, ?_, ?_⟩
      · rw [max_entropy_err choice f log X n_instances T hX2,
          max_entropy_err choice g log X n_instances T hX2]
      · rw [var_ratio_err choice f X n_instances T hX2,
          var_ratio_err choice g X n_instances T hX2]
      · rw [bald_err choice f log X n_instances T hX2,
          bald_err choice g log X n_instances T hX2]
  · intro hX
    refine ⟨?_, ?_, var_ratio_eq choice f X n_instances T hX⟩
    · obtain ⟨hal, hae⟩ := entropy_acq_spec
        (fun t => f (npIndex X (choice X.length 2000)) true t) log T 2000 C hT hshape
      obtain ⟨hl, _, _, hcmp⟩ := topn_desc_spec _
        (specEntropy log (fun t => f (npIndex X (choice X.length 2000)) true t) T C)
        n_instances 2000 hal hae hn
      exact ⟨_, max_entropy_eq choice f log X n_instances T hX, hl, hcmp⟩
    · obtain ⟨hal, hae⟩ := bald_acq_spec
        (fun t => f (npIndex X (choice X.length 2000)) true t) log T 2000 C hT hshape
      obtain ⟨hl, _, _, hcmp⟩ := topn_desc_spec _
        (specBald log (fun t => f (npIndex X (choice X.length 2000)) true t) T C)
        n_instances 2000 hal hae hn
      exact ⟨_, bald_eq choice f log X n_instances T hX, hl, hcmp⟩

/-- Witness for C6 at a concrete input: the second oracle `g` differs from
`f` on learning-phase-`false` calls, yet all three strategies coincide on
the two oracles. -/
theorem C6_mc_dropout_topn_witness :
    0 < 1 ∧ 1 ≤ 2000 ∧
    (∀ t, t < 1 → List.replicate 2000 [(1 : ℚ)]
      = if true then List.replicate 2000 [(1 : ℚ)] else []) ∧
    (∀ t, t < 1 → (List.replicate 2000 [(1 : ℚ)]).length = 2000 ∧
      ∀ row ∈ List.replicate 2000 [(1 : ℚ)], row.length = 1) ∧
    ((max_entropy (fun _ k => List.range k)
        (fun _ _ _ => List.replicate 2000 [(1 : ℚ)]) (fun q => q)
        (List.replicate 2000 (() : Unit)) 1 1
        = max_entropy (fun _ k => List.range k)
          (fun _ ph _ => if ph then List.replicate 2000 [(1 : ℚ)] else [])
          (fun q => q) (List.replicate 2000 (() : Unit)) 1 1 ∧
      var_ratio (fun _ k => List.range k)
        (fun _ _ _ => List.replicate 2000 [(1 : ℚ)])
        (List.replicate 2000 (() : Unit)) 1 1
        = var_ratio (fun _ k => List.range k)
          (fun _ ph _ => if ph then List.replicate 2000 [(1 : ℚ)] else [])
          (List.replicate 2000 (() : Unit)) 1 1 ∧
      bald (fun _ k => List.range k)
        (fun _ _ _ => List.replicate 2000 [(1 : ℚ)]) (fun q => q)
        (List.replicate 2000 (() : Unit)) 1 1
        = bald (fun _ k => List.range k)
          (fun _ ph _ => if ph then List.replicate 2000 [(1 : ℚ)] else [])
          (fun q => q) (List.replicate 2000 (() : Unit)) 1 1) ∧
    (2000 ≤ (List.replicate 2000 (() : Unit)).length →
      (∃ sel : List ℕ,
        max_entropy (fun _ k => List.range k)
          (fun _ _ _ => List.replicate 2000 [(1 : ℚ)]) (fun q => q)
          (List.replicate 2000 (() : Unit)) 1 1
          = Except.ok (npIndex (List.range 2000) sel,
              npIndex (List.replicate 2000 (() : Unit)) (npIndex (List.range 2000) sel)) ∧
        sel.length = 1 ∧
        ∀ i ∈ sel, ∀ j, j < 2000 → j ∉ sel →
          specEntropy (fun q => q) (fun _ => List.replicate 2000 [(1 : ℚ)]) 1 1 j
            ≤ specEntropy (fun q => q) (fun _ => List.replicate 2000 [(1 : ℚ)]) 1 1 i) ∧
      (∃ sel : List ℕ,
        bald (fun _ k => List.range k)
          (fun _ _ _ => List.replicate 2000 [(1 : ℚ)]) (fun q => q)
          (List.replicate 2000 (() : Unit)) 1 1
          = Except.ok (npIndex (List.range 2000) sel,
              npIndex (List.replicate 2000 (() : Unit)) (npIndex (List.range 2000) sel)) ∧
        sel.length = 1 ∧
        ∀ i ∈ sel, ∀ j, j < 2000 → j ∉ sel →
          specBald (fun q => q) (fun _ => List.replicate 2000 [(1 : ℚ)]) 1 1 j
            ≤ specBald (fun q => q) (fun _ => List.replicate 2000 [(1 : ℚ)]) 1 1 i) ∧
      var_ratio (fun _ k => List.range k)
        (fun _ _ _ => List.replicate 2000 [(1 : ℚ)])
        (List.replicate 2000 (() : Unit)) 1 1
        = Except.error "NameError: name a is not defined")) := by
  have hsh : ∀ t, t < 1 → (List.replicate 2000 [(1 : ℚ)]).length = 2000 ∧
      ∀ row ∈ List.replicate 2000 [(1 : ℚ)], row.length = 1 := by
    intro t _
    refine ⟨List.length_replicate _ _, ?_⟩
    intro row hrow
    rw [List.eq_of_mem_replicate hrow]
    rfl
  exact ⟨Nat.one_pos, by omega, fun _ _ => rfl, hsh,
    C6_mc_dropout_topn (fun _ k => List.range k)
      (fun _ _ _ => List.replicate 2000 [(1 : ℚ)])
      (fun _ ph _ => if ph then List.replicate 2000 [(1 : ℚ)] else [])
      (fun q => q) (List.replicate 2000 ()) 1 1 1 Nat.one_pos (by omega)
      (fun _ _ => rfl) hsh⟩

/-! ### Lemmas about the active-learning loop -/

theorem al_loop_length {σ α β : Type} [Inhabited α] [Inhabited β]
    (M : ActiveLearnerOps σ α β) (n_instances : ℕ) :
    ∀ (n : ℕ) (s : ALState σ α β), (al_loop M n_instances s n).length = n
  | 0, _ => rfl
  | n + 1, s => by
    rw [al_loop, List.length_cons, al_loop_length M n_instances n]

theorem al_iter_succ_left {σ α β : Type} [Inhabited α] [Inhabited β]
    (M : ActiveLearnerOps σ α β) (n_instances : ℕ) :
    ∀ (k : ℕ) (s : ALState σ α β),
      al_iter M n_instances s (k + 1) = al_iter M n_instances (al_step M n_instances s) k
  | 0, _ => rfl
  | k + 1, s => by
    show al_step M n_instances (al_iter M n_instances s (k + 1)) = _
    rw [al_iter_succ_left M n_instances k s]
    rfl

theorem al_loop_getD {σ α β : Type} [Inhabited α] [Inhabited β]
    (M : ActiveLearnerOps σ α β) (n_instances : ℕ) :
    ∀ (n : ℕ) (s : ALState σ α β) (k : ℕ), k < n →
      (al_loop M n_instances s n).getD k 0
        = M.score (al_iter M n_instances s (k + 1)).learner
  | 0, _, k, hk => absurd hk (Nat.not_lt_zero k)
  | n + 1, s, 0, _ => by
    rw [al_loop, List.getD_cons_zero]
    rfl
  | n + 1, s, k + 1, hk => by
    rw [al_loop, List.getD_cons_succ,
      al_loop_getD M n_instances n (al_step M n_instances s) k (by omega),
      al_iter_succ_left M n_instances (k + 1) s]

/-- C4: for every `n_queries >= 0`, `active_learning_procedure` returns a
performance history of length `n_queries + 1`; its first entry is the test
accuracy of the learner fitted only on the initial labelled data, and entry
`k + 1` (for `k < n_queries`) is the test accuracy after the `(k+1)`-th
query-and-teach iteration, in iteration order. -/
theorem C4_perf_history {σ α β : Type} [Inhabited α] [Inhabited β]
    (M : ActiveLearnerOps σ α β) (X_pool : List α) (y_pool : List β)
    (X_initial : List α) (y_initial : List β) (n_queries n_instances : ℕ) :
    (active_learning_procedure M X_pool y_pool X_initial y_initial
        n_queries n_instances).length = n_queries + 1 ∧
    (active_learning_procedure M X_pool y_pool X_initial y_initial
        n_queries n_instances).getD 0 0
      = M.score (M.init X_initial y_initial) ∧
    ∀ k, k < n_queries →
      (active_learning_procedure M X_pool y_pool X_initial y_initial
          n_queries n_instances).getD (k + 1) 0
        = M.score (al_iter M n_instances
            ⟨M.init X_initial y_initial, X_pool, y_pool⟩ (k + 1)).learner := by
  refine ⟨?_, rfl, ?_⟩
  · rw [active_learning_procedure]
    rw [List.length_cons, al_loop_length]
  · intro k hk
    rw [active_learning_procedure]
    rw [List.getD_cons_succ]
    exact al_loop_getD M n_instances n_queries _ k hk

/-- Witness for C4 at a concrete input, including the `n_queries = 0` case:
the history is the single initial score and the per-entry clause is vacuous. -/
theorem C4_perf_history_witness :
    ((active_learning_procedure demoOps [10, 20, 30] [1, 2, 3] [5] [0] 0 1).length
        = 0 + 1 ∧
      (active_learning_procedure demoOps [10, 20, 30] [1, 2, 3] [5] [0] 0 1).getD 0 0
        = demoOps.score (demoOps.init [5] [0]) ∧
      ∀ k, k < 0 →
        (active_learning_procedure demoOps [10, 20, 30] [1, 2, 3] [5] [0] 0 1).getD (k + 1) 0
          = demoOps.score (al_iter demoOps 1
              ⟨demoOps.init [5] [0], [10, 20, 30], [1, 2, 3]⟩ (k + 1)).learner) ∧
    ((active_learning_procedure demoOps [10, 20, 30] [1, 2, 3] [5] [0] 1 1).length
        = 1 + 1 ∧
      (active_learning_procedure demoOps [10, 20, 30] [1, 2, 3] [5] [0] 1 1).getD 0 0
        = demoOps.score (demoOps.init [5] [0]) ∧
      ∀ k, k < 1 →
        (active_learning_procedure demoOps [10, 20, 30] [1, 2, 3] [5] [0] 1 1).getD (k + 1) 0
          = demoOps.score (al_iter demoOps 1
              ⟨demoOps.init [5] [0], [10, 20, 30], [1, 2, 3]⟩ (k + 1)).learner) :=
  ⟨C4_perf_history demoOps [10, 20, 30] [1, 2, 3] [5] [0] 0 1,
    C4_perf_history demoOps [10, 20, 30] [1, 2, 3] [5] [0] 1 1⟩

theorem al_step_X {σ α β : Type} [Inhabited α] [Inhabited β]
    (M : ActiveLearnerOps σ α β) (ni : ℕ) (s : ALState σ α β) :
    (al_step M ni s).X_pool = npDelete s.X_pool (M.query s.learner s.X_pool ni).1 :=
  rfl

theorem al_step_y {σ α β : Type} [Inhabited α] [Inhabited β]
    (M : ActiveLearnerOps σ α β) (ni : ℕ) (s : ALState σ α β) :
    (al_step M ni s).y_pool = npDelete s.y_pool (M.query s.learner s.X_pool ni).1 :=
  rfl

theorem al_step_len {σ α β : Type} [Inhabited α] [Inhabited β]
    (M : ActiveLearnerOps σ α β) (ni : ℕ) (s : ALState σ α β)
    (h : s.X_pool.length = s.y_pool.length) :
    (al_step M ni s).X_pool.length = (al_step M ni s).y_pool.length := by
  rw [al_step_X, al_step_y, npDelete_length, npDelete_length, h]

theorem al_step_zip {σ α β : Type} [Inhabited α] [Inhabited β]
    (M : ActiveLearnerOps σ α β) (ni : ℕ) (s : ALState σ α β)
    (h : s.X_pool.length = s.y_pool.length) :
    (al_step M ni s).X_pool.zip (al_step M ni s).y_pool
      = npDelete (s.X_pool.zip s.y_pool) (M.query s.learner s.X_pool ni).1 := by
  rw [al_step_X, al_step_y]
  exact (npDelete_zip _ _ _ h).symm

theorem al_iter_len {σ α β : Type} [Inhabited α] [Inhabited β]
    (M : ActiveLearnerOps σ α β) (ni : ℕ) (s0 : ALState σ α β)
    (h0 : s0.X_pool.length = s0.y_pool.length) :
    ∀ k, (al_iter M ni s0 k).X_pool.length = (al_iter M ni s0 k).y_pool.length
  | 0 => h0
  | k + 1 => al_step_len M ni _ (al_iter_len M ni s0 h0 k)

theorem al_iter_zip_succ {σ α β : Type} [Inhabited α] [Inhabited β]
    (M : ActiveLearnerOps σ α β) (ni : ℕ) (s0 : ALState σ α β)
    (h0 : s0.X_pool.length = s0.y_pool.length) (k : ℕ) :
    (al_iter M ni s0 (k + 1)).X_pool.zip (al_iter M ni s0 (k + 1)).y_pool
      = npDelete ((al_iter M ni s0 k).X_pool.zip (al_iter M ni s0 k).y_pool)
          (M.query (al_iter M ni s0 k).learner (al_iter M ni s0 k).X_pool ni).1 :=
  al_step_zip M ni (al_iter M ni s0 k) (al_iter_len M ni s0 h0 k)

theorem al_iter_zip_sublist_add {σ α β : Type} [Inhabited α] [Inhabited β]
    (M : ActiveLearnerOps σ α β) (ni : ℕ) (s0 : ALState σ α β)
    (h0 : s0.X_pool.length = s0.y_pool.length) :
    ∀ (d k : ℕ),
      ((al_iter M ni s0 (k + d)).X_pool.zip (al_iter M ni s0 (k + d)).y_pool).Sublist
        ((al_iter M ni s0 k).X_pool.zip (al_iter M ni s0 k).y_pool)
  | 0, _ => List.Sublist.refl _
  | d + 1, k => by
    have h1 : k + (d + 1) = (k + d) + 1 := rfl
    rw [h1, al_iter_zip_succ M ni s0 h0 (k + d)]
    exact (npDelete_sublist _ _).trans (al_iter_zip_sublist_add M ni s0 h0 d k)

theorem al_iter_zip_sublist {σ α β : Type} [Inhabited α] [Inhabited β]
    (M : ActiveLearnerOps σ α β) (ni : ℕ) (s0 : ALState σ α β)
    (h0 : s0.X_pool.length = s0.y_pool.length) (k m : ℕ) (h : k ≤ m) :
    ((al_iter M ni s0 m).X_pool.zip (al_iter M ni s0 m).y_pool).Sublist
      ((al_iter M ni s0 k).X_pool.zip (al_iter M ni s0 k).y_pool) := by
  obtain ⟨d, rfl⟩ := Nat.exists_eq_add_of_le h
  exact al_iter_zip_sublist_add M ni s0 h0 d k

/-- C5: in every iteration of the active-learning loop, the queried indices
are removed from both pools at the same positions: the pools keep equal
length, the zipped pool after an iteration is exactly the previous zipped
pool with the queried positions deleted (so every surviving feature row
stays paired with its original label), the pool shrinks by exactly the
number of distinct queried indices, each pool is a sublist of its
predecessor, and (for pools without duplicate entries) a queried pool item
is never part of the pool in any later iteration. -/
theorem C5_pool_invariant {σ α β : Type} [Inhabited α] [Inhabited β]
    (M : ActiveLearnerOps σ α β) (n_instances : ℕ) (s0 : ALState σ α β)
    (k i m : ℕ)
    (hlen : s0.X_pool.length = s0.y_pool.length)
    (hq : ∀ st pool n, ∀ j ∈ (M.query st pool n).1, j < pool.length)
    (hnd : (s0.X_pool.zip s0.y_pool).Nodup)
    (hi : i ∈ (M.query (al_iter M n_instances s0 k).learner
      (al_iter M n_instances s0 k).X_pool n_instances).1)
    (hm : k < m) :
    ((al_iter M n_instances s0 k).X_pool.length
      = (al_iter M n_instances s0 k).y_pool.length) ∧
    ((al_iter M n_instances s0 (k + 1)).X_pool.zip
        (al_iter M n_instances s0 (k + 1)).y_pool
      = npDelete ((al_iter M n_instances s0 k).X_pool.zip
          (al_iter M n_instances s0 k).y_pool)
          (M.query (al_iter M n_instances s0 k).learner
            (al_iter M n_instances s0 k).X_pool n_instances).1) ∧
    ((al_iter M n_instances s0 (k + 1)).X_pool.length
      = (al_iter M n_instances s0 k).X_pool.length
        - (M.query (al_iter M n_instances s0 k).learner
            (al_iter M n_instances s0 k).X_pool n_instances).1.dedup.length) ∧
    (((al_iter M n_instances s0 (k + 1)).X_pool.zip
        (al_iter M n_instances s0 (k + 1)).y_pool).Sublist
      ((al_iter M n_instances s0 k).X_pool.zip
        (al_iter M n_instances s0 k).y_pool)) ∧
    (((al_iter M n_instances s0 k).X_pool.zip
        (al_iter M n_instances s0 k).y_pool).getD i default
      ∉ (al_iter M n_instances s0 m).X_pool.zip
          (al_iter M n_instances s0 m).y_pool) := by
  have hlk := al_iter_len M n_instances s0 hlen k
  have hzip := al_iter_zip_succ M n_instances s0 hlen k
  have hziplen : ((al_iter M n_instances s0 k).X_pool.zip
      (al_iter M n_instances s0 k).y_pool).length
      = (al_iter M n_instances s0 k).X_pool.length := by
    rw [List.length_zip, ← hlk, Nat.min_self]
  have hilt : i < (al_iter M n_instances s0 k).X_pool.length := hq _ _ _ _ hi
  have hndk : ((al_iter M n_instances s0 k).X_pool.zip
      (al_iter M n_instances s0 k).y_pool).Nodup :=
    (al_iter_zip_sublist M n_instances s0 hlen 0 k (Nat.zero_le k)).nodup hnd
  refine ⟨hlk, hzip, ?_, ?_, ?_⟩
  · show (al_step M n_instances (al_iter M n_instances s0 k)).X_pool.length = _
    rw [al_step_X]
    exact npDelete_length_sub _ _ (hq _ _ _)
  · rw [hzip]
    exact npDelete_sublist _ _
  · have hnotin : ((al_iter M n_instances s0 k).X_pool.zip
        (al_iter M n_instances s0 k).y_pool).getD i default
        ∉ (al_iter M n_instances s0 (k + 1)).X_pool.zip
            (al_iter M n_instances s0 (k + 1)).y_pool := by
      rw [hzip]
      exact npDelete_not_mem _ _ i default hndk (hziplen ▸ hilt) hi
    intro hcon
    exact hnotin ((al_iter_zip_sublist M n_instances s0 hlen (k + 1) m hm).mem hcon)

/-- Witness for C5 at a concrete input: a three-point pool, querying one
point per iteration. -/
theorem C5_pool_invariant_witness :
    (⟨(), [10, 20, 30], [1, 2, 3]⟩ : ALState Unit ℕ ℕ).X_pool.length
      = (⟨(), [10, 20, 30], [1, 2, 3]⟩ : ALState Unit ℕ ℕ).y_pool.length ∧
    (∀ (st : Unit) (pool : List ℕ) (n : ℕ),
      ∀ j ∈ (demoOps.query st pool n).1, j < pool.length) ∧
    ((⟨(), [10, 20, 30], [1, 2, 3]⟩ : ALState Unit ℕ ℕ).X_pool.zip
      (⟨(), [10, 20, 30], [1, 2, 3]⟩ : ALState Unit ℕ ℕ).y_pool).Nodup ∧
    0 ∈ (demoOps.query
      (al_iter demoOps 1 ⟨(), [10, 20, 30], [1, 2, 3]⟩ 0).learner
      (al_iter demoOps 1 ⟨(), [10, 20, 30], [1, 2, 3]⟩ 0).X_pool 1).1 ∧
    0 < 1 ∧
    (((al_iter demoOps 1 ⟨(), [10, 20, 30], [1, 2, 3]⟩ 0).X_pool.length
      = (al_iter demoOps 1 ⟨(), [10, 20, 30], [1, 2, 3]⟩ 0).y_pool.length) ∧
    ((al_iter demoOps 1 ⟨(), [10, 20, 30], [1, 2, 3]⟩ (0 + 1)).X_pool.zip
        (al_iter demoOps 1 ⟨(), [10, 20, 30], [1, 2, 3]⟩ (0 + 1)).y_pool
      = npDelete ((al_iter demoOps 1 ⟨(), [10, 20, 30], [1, 2, 3]⟩ 0).X_pool.zip
          (al_iter demoOps 1 ⟨(), [10, 20, 30], [1, 2, 3]⟩ 0).y_pool)
          (demoOps.query (al_iter demoOps 1 ⟨(), [10, 20, 30], [1, 2, 3]⟩ 0).learner
            (al_iter demoOps 1 ⟨(), [10, 20, 30], [1, 2, 3]⟩ 0).X_pool 1).1) ∧
    ((al_iter demoOps 1 ⟨(), [10, 20, 30], [1, 2, 3]⟩ (0 + 1)).X_pool.length
      = (al_iter demoOps 1 ⟨(), [10, 20, 30], [1, 2, 3]⟩ 0).X_pool.length
        - (demoOps.query (al_iter demoOps 1 ⟨(), [10, 20, 30], [1, 2, 3]⟩ 0).learner
            (al_iter demoOps 1 ⟨(), [10, 20, 30], [1, 2, 3]⟩ 0).X_pool 1).1.dedup.length) ∧
    (((al_iter demoOps 1 ⟨(), [10, 20, 30], [1, 2, 3]⟩ (0 + 1)).X_pool.zip
        (al_iter demoOps 1 ⟨(), [10, 20, 30], [1, 2, 3]⟩ (0 + 1)).y_pool).Sublist
      ((al_iter demoOps 1 ⟨(), [10, 20, 30], [1, 2, 3]⟩ 0).X_pool.zip
        (al_iter demoOps 1 ⟨(), [10, 20, 30], [1, 2, 3]⟩ 0).y_pool)) ∧
    (((al_iter demoOps 1 ⟨(), [10, 20, 30], [1, 2, 3]⟩ 0).X_pool.zip
        (al_iter demoOps 1 ⟨(), [10, 20, 30], [1, 2, 3]⟩ 0).y_pool).getD 0 default
      ∉ (al_iter demoOps 1 ⟨(), [10, 20, 30], [1, 2, 3]⟩ 1).X_pool.zip
          (al_iter demoOps 1 ⟨(), [10, 20, 30], [1, 2, 3]⟩ 1).y_pool)) := by
  have hq : ∀ (st : Unit) (pool : List ℕ) (n : ℕ),
      ∀ j ∈ (demoOps.query st pool n).1, j < pool.length := by
    intro st pool n j hj
    exact lt_of_lt_of_le (List.mem_range.mp hj) (Nat.min_le_right _ _)
  exact ⟨rfl, hq, by decide, by decide, Nat.one_pos,
    C5_pool_invariant demoOps 1 ⟨(), [10, 20, 30], [1, 2, 3]⟩ 0 0 1
      rfl hq (by decide) (by decide) Nat.one_pos⟩

/-- C7 counterexample: the claim that the script plots the recorded accuracy
curves is false — no top-level statement of any notebook cell is a plotting
call. -/
theorem C7_no_plot_counterexample :
    ¬ ∃ s ∈ notebookScript, isPlotStmt s = true := by decide

/-- C7 (amended): after running the active-learning procedures, the script
imports matplotlib.pyplot and seaborn and applies the seaborn default style
(`sns.set()`), but contains no plotting call, so no accuracy curves are
plotted. -/
theorem C7_plot_setup_only :
    notebookCells.getLast? = some [ScriptStmt.importLib "matplotlib.pyplot",
      ScriptStmt.importLib "seaborn", ScriptStmt.setStyle] ∧
    notebookScript.filter isPlotStmt = [] := by
  constructor
  · rfl
  · rfl

/-! ### The initial labelled set (claim C9) -/

theorem whereColOne_toCategorical (labels : List ℕ) (i : ℕ) (hi : i < 10) :
    whereColOne (toCategorical 10 labels) i
      = (List.range labels.length).filter fun j => decide (labels.getD j 0 = i) := by
  rw [whereColOne, toCategorical, List.length_map]
  apply List.filter_congr
  intro j hj
  have hjlt : j < labels.length := List.mem_range.mp hj
  rw [decide_eq_decide]
  rw [getD_map_of_lt _ labels j [] 0 hjlt]
  rw [getD_range_map _ 10 i (0 : ℚ) hi]
  by_cases hc : i = labels.getD j 0
  · rw [if_pos hc]
    constructor
    · intro _
      exact hc.symm
    · intro _
      rfl
  · rw [if_neg hc]
    constructor
    · intro h0
      exact absurd h0.symm one_ne_zero
    · intro hl
      exact absurd hl.symm hc

theorem mem_whereColOne_toCategorical (labels : List ℕ) (i : ℕ) (hi : i < 10)
    (j : ℕ) :
    j ∈ whereColOne (toCategorical 10 labels) i
      ↔ j < labels.length ∧ labels.getD j 0 = i := by
  rw [whereColOne_toCategorical labels i hi, List.mem_filter, List.mem_range,
    decide_eq_true_eq]

theorem whereColOne_toCategorical_nodup (labels : List ℕ) (i : ℕ) :
    (whereColOne (toCategorical 10 labels) i).Nodup :=
  (List.nodup_range _).filter _

/-- Unrolling the class-balanced construction of `initial_idx`: a successful
run over the classes `cs` extends the accumulator by two fresh indices per
class, keeping the result duplicate-free and producing exactly two indices
of each listed class. -/
theorem initial_fold_ok (cf : List ℕ → ℕ → List ℕ) (labels : List ℕ)
    (hcf : ValidChoiceFrom cf) :
    ∀ (cs : List ℕ) (acc L : List ℕ),
      cs.Nodup → (∀ i ∈ cs, i < 10) →
      acc.Nodup → (∀ j ∈ acc, ∀ i ∈ cs, labels.getD j 0 ≠ i) →
      List.foldlM (fun acc i => do
        let idx ← npChoiceFrom cf (whereColOne (toCategorical 10 labels) i) 2
        pure (acc ++ idx)) acc cs = Except.ok L →
      L.length = acc.length + 2 * cs.length ∧ L.Nodup ∧
      (∀ j ∈ L, j ∈ acc ∨ j < labels.length) ∧
      (∀ j ∈ acc, ∀ i ∈ cs, labels.getD j 0 ≠ i) ∧
      ∀ c, c < 10 →
        (L.filter fun j => decide (labels.getD j 0 = c)).length
          = (acc.filter fun j => decide (labels.getD j 0 = c)).length
            + 2 * (cs.filter fun i => decide (i = c)).length
  | [], acc, L, _, _, haccnd, hdisj, hok => by
    have hL : acc = L := by
      injection hok
    subst hL
    refine ⟨by simp, haccnd, fun j hj => Or.inl hj, hdisj, ?_⟩
    intro c _
    rw [List.filter_nil, List.length_nil]
    omega
  | i :: cs, acc, L, hcsnd, hcslt, haccnd, hdisj, hok => by
    have hilt : i < 10 := hcslt i (List.mem_cons_self _ _)
    rw [List.foldlM_cons, npChoiceFrom] at hok
    by_cases hif : 2 ≤ (whereColOne (toCategorical 10 labels) i).length
    · rw [if_pos hif] at hok
      have hok2 : List.foldlM (fun acc i => do
          let idx ← npChoiceFrom cf (whereColOne (toCategorical 10 labels) i) 2
          pure (acc ++ idx))
          (acc ++ cf (whereColOne (toCategorical 10 labels) i) 2) cs
          = Except.ok L := hok
      obtain ⟨hplen, hpnd, hpsub⟩ := hcf _ 2 hif
      have hpart_nd : (cf (whereColOne (toCategorical 10 labels) i) 2).Nodup :=
        hpnd (whereColOne_toCategorical_nodup labels i)
      have hpart_mem : ∀ j ∈ cf (whereColOne (toCategorical 10 labels) i) 2,
          j < labels.length ∧ labels.getD j 0 = i := by
        intro j hj
        exact (mem_whereColOne_toCategorical labels i hilt j).mp (hpsub j hj)
      have hacc2nd : (acc ++ cf (whereColOne (toCategorical 10 labels) i) 2).Nodup := by
        rw [List.nodup_append]
        refine ⟨haccnd, hpart_nd, ?_⟩
        intro j hj hj2
        exact hdisj j hj i (List.mem_cons_self _ _) (hpart_mem j hj2).2
      have hdisj2 : ∀ j ∈ acc ++ cf (whereColOne (toCategorical 10 labels) i) 2,
          ∀ i2 ∈ cs, labels.getD j 0 ≠ i2 := by
        intro j hj i2 hi2
        rcases List.mem_append.mp hj with hja | hjp
        · exact hdisj j hja i2 (List.mem_cons_of_mem i hi2)
        · rw [(hpart_mem j hjp).2]
          intro hEq
          subst hEq
          exact (List.nodup_cons.mp hcsnd).1 hi2
      obtain ⟨ih1, ih2, ih3, _, ih5⟩ := initial_fold_ok cf labels hcf cs
        (acc ++ cf (whereColOne (toCategorical 10 labels) i) 2) L
        (List.nodup_cons.mp hcsnd).2 (fun i2 hi2 => hcslt i2 (List.mem_cons_of_mem i hi2))
        hacc2nd hdisj2 hok2
      refine ⟨?_, ih2, ?_, ?_, ?_⟩
      · rw [ih1, List.length_append, hplen, List.length_cons]
        omega
      · intro j hj
        rcases ih3 j hj with hja | hjl
        · rcases List.mem_append.mp hja with h | h
          · exact Or.inl h
          · exact Or.inr (hpart_mem j h).1
        · exact Or.inr hjl
      · intro j hj i2 hi2
        exact hdisj j hj i2 hi2
      · intro c hc
        have hcount := ih5 c hc
        rw [List.filter_append, List.length_append] at hcount
        rw [hcount, List.filter_cons]
        by_cases hic : i = c
        · have hall : (cf (whereColOne (toCategorical 10 labels) i) 2).filter
              (fun j => decide (labels.getD j 0 = c))
              = cf (whereColOne (toCategorical 10 labels) i) 2 := by
            apply List.filter_eq_self.mpr
            intro j hj
            rw [decide_eq_true_eq, (hpart_mem j hj).2]
            exact hic
          rw [hall, hplen]
          rw [if_pos (by rw [decide_eq_true_eq]; exact hic)]
          rw [List.length_cons]
          omega
        · have hnone : (cf (whereColOne (toCategorical 10 labels) i) 2).filter
              (fun j => decide (labels.getD j 0 = c)) = [] := by
            apply List.filter_eq_nil_iff.mpr
            intro j hj
            rw [decide_eq_true_eq, (hpart_mem j hj).2]
            exact hic
          rw [hnone, List.length_nil]
          rw [if_neg (by rw [decide_eq_true_eq]; exact hic)]
          omega
    · rw [if_neg hif] at hok
      exact Except.noConfusion hok

/-- C9: the initial labelled set is class-balanced: a successful run of the
`initial_idx` construction returns exactly 2 training indices of each of the
10 digit classes (20 in total, pairwise distinct, drawn without replacement
within each class), and deleting those rows from the training set leaves a
pool of `X_train.length - 20` elements — 59980 for the 60000-element MNIST
training set. -/
theorem C9_initial_balanced {α : Type} [Inhabited α]
    (cf : List ℕ → ℕ → List ℕ) (X_train : List α) (labels L : List ℕ)
    (hcf : ValidChoiceFrom cf)
    (hXlen : X_train.length = labels.length)
    (hok : initial_idx cf (toCategorical 10 labels) = Except.ok L) :
    L.length = 20 ∧ L.Nodup ∧
    (∀ c, c < 10 → (L.filter fun j => decide (labels.getD j 0 = c)).length = 2) ∧
    (∀ j ∈ L, j < X_train.length) ∧
    (npDelete X_train L).length = X_train.length - 20 ∧
    (labels.length = 60000 → (npDelete X_train L).length = 59980) := by
  rw [initial_idx] at hok
  obtain ⟨h1, h2, h3, _, h5⟩ := initial_fold_ok cf labels hcf (List.range 10) [] L
    (List.nodup_range 10) (fun i hi => List.mem_range.mp hi) List.nodup_nil
    (fun j hj => absurd hj (List.not_mem_nil j)) hok
  have hlen20 : L.length = 20 := by
    rw [h1]
    rfl
  have hmem : ∀ j ∈ L, j < X_train.length := by
    intro j hj
    rcases h3 j hj with h | h
    · exact absurd h (List.not_mem_nil j)
    · omega
  have hdel : (npDelete X_train L).length = X_train.length - 20 := by
    rw [npDelete_length_sub X_train L hmem, List.dedup_eq_self.mpr h2, hlen20]
  refine ⟨hlen20, h2, ?_, hmem, hdel, ?_⟩
  · intro c hc
    have hcount := h5 c hc
    rw [List.filter_nil, List.length_nil] at hcount
    have hone : ((List.range 10).filter fun i => decide (i = c)).length = 1 := by
      interval_cases c <;> decide
    omega
  · intro h60
    rw [hdel, hXlen, h60]

/-- The prefix-taking oracle is a valid without-replacement draw. -/
theorem validChoiceFrom_take : ValidChoiceFrom (fun arr k => arr.take k) := by
  intro arr k hk
  refine ⟨?_, ?_, ?_⟩
  · rw [List.length_take]
    omega
  · intro h
    exact (List.take_sublist k arr).nodup h
  · intro i hi
    exact List.take_subset k arr hi

/-- Witness for C9 at a concrete input: twenty training rows, two of each
class, with the prefix-taking oracle. -/
theorem C9_initial_balanced_witness :
    ValidChoiceFrom (fun arr k => arr.take k) ∧
    (List.range 20).length = (List.range 10 ++ List.range 10).length ∧
    initial_idx (fun arr k => arr.take k)
        (toCategorical 10 (List.range 10 ++ List.range 10))
      = Except.ok [0, 10, 1, 11, 2, 12, 3, 13, 4, 14, 5, 15, 6, 16, 7, 17, 8, 18, 9, 19] ∧
    (([0, 10, 1, 11, 2, 12, 3, 13, 4, 14, 5, 15, 6, 16, 7, 17, 8, 18, 9, 19] : List ℕ).length = 20 ∧
    ([0, 10, 1, 11, 2, 12, 3, 13, 4, 14, 5, 15, 6, 16, 7, 17, 8, 18, 9, 19] : List ℕ).Nodup ∧
    (∀ c, c < 10 →
      (([0, 10, 1, 11, 2, 12, 3, 13, 4, 14, 5, 15, 6, 16, 7, 17, 8, 18, 9, 19] : List ℕ).filter
        fun j => decide ((List.range 10 ++ List.range 10).getD j 0 = c)).length = 2) ∧
    (∀ j ∈ ([0, 10, 1, 11, 2, 12, 3, 13, 4, 14, 5, 15, 6, 16, 7, 17, 8, 18, 9, 19] : List ℕ),
      j < (List.range 20).length) ∧
    (npDelete (List.range 20)
      [0, 10, 1, 11, 2, 12, 3, 13, 4, 14, 5, 15, 6, 16, 7, 17, 8, 18, 9, 19]).length
      = (List.range 20).length - 20 ∧
    ((List.range 10 ++ List.range 10).length = 60000 →
      (npDelete (List.range 20)
        [0, 10, 1, 11, 2, 12, 3, 13, 4, 14, 5, 15, 6, 16, 7, 17, 8, 18, 9, 19]).length
        = 59980)) :=
  ⟨validChoiceFrom_take, rfl, rfl,
    C9_initial_balanced (fun arr k => arr.take k) (List.range 20)
      (List.range 10 ++ List.range 10)
      [0, 10, 1, 11, 2, 12, 3, 13, 4, 14, 5, 15, 6, 16, 7, 17, 8, 18, 9, 19]
      validChoiceFrom_take rfl rfl⟩

end DBAL
